import Mathlib

/-!
Shallow embedding of the grobber media aggregator (myanimestream/grobber),
covering the UID scheme, anime grouping, stream resolution, the HTTP request
retry loop, the stateful serialization layer and the index scraper, together
with theorems checking the natural-language specification against the code.

Python strings are modelled as `List Char`; Python `int` as `Int` (or `Nat`
where the source only ever produces naturals); fallible code returns
`Except`/`Option`.
-/

namespace Grobber

/-! ### Languages (src/grobber/languages.py) -/

/-- `Language` enum: ENGLISH = "en", GERMAN = "de". -/
inductive Language
  | ENGLISH
  | GERMAN
deriving DecidableEq, Repr

/-- The `value` of a `Language` enum member. -/
def Language.value : Language → List Char
  | .ENGLISH => ['e', 'n']
  | .GERMAN => ['d', 'e']

/-- `get_lang(name)` is `Language(name)`; `none` models the `ValueError`
raised by the Python enum constructor on an unknown value. -/
def get_lang (name : List Char) : Option Language :=
  if name = ['e', 'n'] then some .ENGLISH
  else if name = ['d', 'e'] then some .GERMAN
  else none

/-! ### Medium types (src/grobber/uid.py) -/

/-- `MediumType` enum: ANIME = "a", MANGA = "m". -/
inductive MediumType
  | ANIME
  | MANGA
deriving DecidableEq, Repr

/-- The `value` of a `MediumType` enum member. -/
def MediumType.value : MediumType → List Char
  | .ANIME => ['a']
  | .MANGA => ['m']

/-- `MediumType(s)`; `none` models the `ValueError` on an unknown value. -/
def MediumType.fromValue (s : List Char) : Option MediumType :=
  if s = ['a'] then some .ANIME
  else if s = ['m'] then some .MANGA
  else none

/-! ### Python character and string primitives (ASCII fragment)

The medium-id normalization and the UID grammar only need the ASCII
behaviour of `str.strip`, `str.lower` and `str.isalnum`; theorems about
them carry an explicit ASCII hypothesis where it matters. -/

/-- Python's notion of (ASCII) whitespace used by `str.strip()`:
space, tab, newline, carriage return, vertical tab, form feed. -/
def pyIsSpace (c : Char) : Bool :=
  c = ' ' || c = '\t' || c = '\n' || c = '\r' || c.toNat = 11 || c.toNat = 12

/-- ASCII fragment of `str.lower()`, applied characterwise. -/
def pyLower (c : Char) : Char :=
  if 'A' ≤ c ∧ c ≤ 'Z' then Char.ofNat (c.toNat + 32) else c

/-- ASCII fragment of `str.isalnum()`. -/
def pyIsAlnum (c : Char) : Bool :=
  ('0' ≤ c && c ≤ '9') || ('a' ≤ c && c ≤ 'z') || ('A' ≤ c && c ≤ 'Z')

/-- `str.rstrip()`: drop trailing whitespace. -/
def pyRstrip (l : List Char) : List Char :=
  (l.reverse.dropWhile pyIsSpace).reverse

/-- `str.strip()`: drop leading and trailing whitespace. -/
def pyStrip (l : List Char) : List Char :=
  (pyRstrip l).dropWhile pyIsSpace

/-- Hex digit character, lowercase, as produced by Python's format spec `x`. -/
def hexDigitChar (n : Nat) : Char :=
  if n < 10 then Char.ofNat (48 + n) else Char.ofNat (87 + n)

/-- Fuel-driven accumulator loop for hex rendering. -/
def pyHexAux : Nat → Nat → List Char → List Char
  | 0, _, acc => acc
  | fuel + 1, n, acc =>
    let acc := hexDigitChar (n % 16) :: acc
    if n < 16 then acc else pyHexAux fuel (n / 16) acc

/-- `f"{n:x}"`: minimal lowercase hex rendering of a natural number. -/
def pyHex (n : Nat) : List Char := pyHexAux (n + 1) n []

/-! ### UID.create_media_id (src/grobber/uid.py lines 74-79) -/

/-- `UID.create_media_id`: strip the name, lowercase it, remove space
characters, then keep alphanumeric characters and encode every other
character `c` as `_<hex of codepoint>_`. -/
def create_media_id (name : List Char) : List Char :=
  let name := pyStrip name
  let name := name.map pyLower
  let name := name.filter (fun c => c ≠ ' ')
  (name.map (fun c => if pyIsAlnum c then [c] else '_' :: (pyHex c.toNat ++ ['_']))).flatten

/-! ### UID.create (src/grobber/uid.py lines 58-72) -/

/-- Parsed UID components. -/
structure ParsedUID where
  medium_type : MediumType
  medium_id : List Char
  source : Option (List Char)
  language : Language
  dubbed : Bool
deriving DecidableEq, Repr

/-- `UID.create`: renders `"{media_type.value}-{media_id}{source_str}-{language.value}{dubbed_str}"`
where `source_str` is `"-{source}"` when `source` is truthy (present and
non-empty) and `dubbed_str` is `"_dub"` when `dubbed`. -/
def UID.create (media_type : MediumType) (media_id : List Char) (source : Option (List Char))
    (language : Language) (dubbed : Bool) : List Char :=
  let dubbed_str := if dubbed then ['_', 'd', 'u', 'b'] else []
  let source_str := match source with
    | some s => if s ≠ [] then '-' :: s else []
    | none => []
  media_type.value ++ '-' :: media_id ++ source_str ++ '-' :: language.value ++ dubbed_str

/-! ### The two UID regexes (src/grobber/uid.py lines 13-16)

`RE_UID_PARSER   = ^([^-]+)-([^-]+)(?:-([^-]+))?-([^-]+?)(_dub)?$`
`RE_LEGACY_UID_PARSER = ^(.+)-(.+)-(.+?)(_dub)?$`

The canonical pattern is dash-free per segment, so it is matched by
splitting on dashes.  The legacy pattern needs PCRE backtracking: group 1
greedily tries the longest prefix ending before a dash, then group 2 the
longest feasible middle part, then the lazily minimal tail optionally
sheds one `_dub` suffix. -/

/-- Split a character list on `'-'` (like the pieces of a dash-separated
regex): `splitDash "a-b" = ["a", "b"]`, with empty pieces preserved. -/
def splitDash : List Char → List (List Char)
  | [] => [[]]
  | c :: rest =>
    if c = '-' then [] :: splitDash rest
    else
      match splitDash rest with
      | s :: ss => (c :: s) :: ss
      | [] => [[c]]

/-- `([^-]+?)(_dub)?$` applied to a dash-free segment: lazily shed one
`_dub` suffix when the remaining stem stays non-empty. -/
def stripDub (seg : List Char) : List Char × Bool :=
  if ['_', 'd', 'u', 'b'].isSuffixOf seg ∧ 4 < seg.length then
    (seg.take (seg.length - 4), true)
  else (seg, false)

/-- Match of `RE_UID_PARSER`: 3 or 4 non-empty dash-free segments; returns
`(medium type str, medium id, optional source, language str, dubbed)`. -/
def RE_UID_PARSER_match (s : List Char) :
    Option (List Char × List Char × Option (List Char) × List Char × Bool) :=
  match splitDash s with
  | [t, id, lang] =>
    if t ≠ [] ∧ id ≠ [] ∧ lang ≠ [] then
      let ld := stripDub lang
      some (t, id, none, ld.1, ld.2)
    else none
  | [t, id, src, lang] =>
    if t ≠ [] ∧ id ≠ [] ∧ src ≠ [] ∧ lang ≠ [] then
      let ld := stripDub lang
      some (t, id, some src, ld.1, ld.2)
    else none
  | _ => none

/-- Descending search `n-1, n-2, ..., 0` for the first index accepted by `f`
(the order in which a greedy regex group tries split points). -/
def findSomeRevRange (f : Nat → Option α) : Nat → Option α
  | 0 => none
  | n + 1 =>
    match f n with
    | some r => some r
    | none => findSomeRevRange f n

/-- Inner match of the legacy pattern tail `(.+)-(.+?)(_dub)?$` against the
text following group 1's separator: group 2 greedily takes the longest
prefix that leaves a non-empty tail after a dash. -/
def legacyInnerMatch (T : List Char) : Option (List Char × List Char × Bool) :=
  findSomeRevRange
    (fun j =>
      if T[j]? = some '-' ∧ 1 ≤ j ∧ j + 2 ≤ T.length then
        let ld := stripDub (T.drop (j + 1))
        some (T.take j, ld.1, ld.2)
      else none)
    T.length

/-- Match of `RE_LEGACY_UID_PARSER` `^(.+)-(.+)-(.+?)(_dub)?$`: returns
`(source, medium id, language str, dubbed)`.  Group 1 greedily tries the
longest prefix followed by a dash such that the rest matches. -/
def RE_LEGACY_UID_PARSER_match (s : List Char) :
    Option (List Char × List Char × List Char × Bool) :=
  findSomeRevRange
    (fun i =>
      if s[i]? = some '-' ∧ 1 ≤ i then
        (legacyInnerMatch (s.drop (i + 1))).map (fun r => (s.take i, r.1, r.2.1, r.2.2))
      else none)
    s.length

/-- Python exception kinds escaping `UID.parse`. -/
inductive UIDParseError
  | uidInvalid
  | valueError
deriving DecidableEq, Repr

/-- `UID.parse` (src/grobber/uid.py lines 87-112): try the canonical regex;
on a match, build `MediumType(group 1)` and `get_lang(group 4)` (whose
`ValueError`s escape).  Otherwise try the legacy regex with implied medium
type ANIME; if neither matches, raise `UIDInvalid`. -/
def UID.parse (s : List Char) : Except UIDParseError ParsedUID :=
  match RE_UID_PARSER_match s with
  | some (t, id, src, langStr, dub) =>
    match MediumType.fromValue t with
    | none => .error .valueError
    | some mt =>
      match get_lang langStr with
      | none => .error .valueError
      | some lang => .ok ⟨mt, id, src, lang, dub⟩
  | none =>
    match RE_LEGACY_UID_PARSER_match s with
    | none => .error .uidInvalid
    | some (g1, g2, langStr, dub) =>
      match get_lang langStr with
      | none => .error .valueError
      | some lang => .ok ⟨.ANIME, g2, some g1, lang, dub⟩

/-- `UID` subclasses `str`: an instance is the underlying string itself
(components are parsed lazily and do not affect the string value). -/
structure UIDStr where
  val : List Char
deriving DecidableEq, Repr

/-- `UID(value)`: constructing a UID from a string keeps the string. -/
def UID.ofString (value : List Char) : UIDStr := ⟨value⟩

/-- Rendering a UID back to a string (`str(uid)`). -/
def UIDStr.render (u : UIDStr) : List Char := u.val

/-- Decidable equality on `Except`, used to evaluate parse results. -/
instance exceptDecidableEq {ε α : Type} [DecidableEq ε] [DecidableEq α] :
    DecidableEq (Except ε α) := fun a b =>
  match a, b with
  | .error e, .error f =>
    if h : e = f then .isTrue (by rw [h])
    else .isFalse (fun hc => h (Except.error.inj hc))
  | .ok x, .ok y =>
    if h : x = y then .isTrue (by rw [h])
    else .isFalse (fun hc => h (Except.ok.inj hc))
  | .error _, .ok _ => .isFalse (fun hc => Except.noConfusion hc)
  | .ok _, .error _ => .isFalse (fun hc => Except.noConfusion hc)

/-! ### Specification-side definitions for the medium-id normalization -/

/-- The character class `[0-9a-z_]` named by the specification. -/
def isMediaIdChar (c : Char) : Bool :=
  ('0' ≤ c && c ≤ '9') || ('a' ≤ c && c ≤ 'z') || c = '_'

/-- The normalization as the specification words it (to compare against
`create_media_id`): lowercase the title, drop all whitespace, and replace
each remaining non-alphanumeric character with an underscore-wrapped hex
codepoint. -/
def spec_normalize (t : List Char) : List Char :=
  (((t.map pyLower).filter (fun c => !pyIsSpace c)).map
    (fun c => if pyIsAlnum c then [c] else '_' :: (pyHex c.toNat ++ ['_']))).flatten

/-! ### AnimeGroup.could_contain (src/grobber/anime/group.py lines 279-315) -/

/-- The data of an `AnimeGroup` consulted by `could_contain`: the group key
`(language, is_dub, media_id)` and the members' episode counts as returned
by `get_from_all("episode_count")`. -/
structure AnimeGroup where
  language : Language
  is_dub : Bool
  media_id : List Char
  episode_counts : List Int
deriving DecidableEq, Repr

/-- The candidate anime attributes awaited by `could_contain`.
`episode_count = none` models `await anime.episode_count` raising (the code
logs the exception and rejects the candidate). -/
structure CandidateAnime where
  language : Language
  is_dub : Bool
  media_id : List Char
  episode_count : Option Int
deriving DecidableEq, Repr

/-- `AnimeGroup.could_contain`: reject on differing language, dub flag or
media id; accept when the group has no episode counts (falsy list); else
widen the `[min, max]` count range to `[min(min, max-2), max(max, min+2)]`
(the code comment wants a spread of at least 4) and accept iff the
candidate's count lies in that range, rejecting when fetching it raises.
`List.max?`/`List.min?` play Python's `max`/`min`; they are `some` exactly
on the non-empty lists the code guards for. -/
def could_contain (g : AnimeGroup) (a : CandidateAnime) : Bool :=
  if g.language ≠ a.language then false
  else if g.is_dub ≠ a.is_dub then false
  else if g.media_id ≠ a.media_id then false
  else
    match g.episode_counts.max?, g.episode_counts.min? with
    | some real_max_ep_count, some real_min_ep_count =>
      let max_ep_count := max real_max_ep_count (real_min_ep_count + 2)
      let min_ep_count := min real_min_ep_count (real_max_ep_count - 2)
      match a.episode_count with
      | none => false
      | some episode_count =>
        decide (min_ep_count ≤ episode_count ∧ episode_count ≤ max_ep_count)
    | _, _ => true

/-! ### Streams and episode stream resolution
(src/grobber/anime/models/stream.py lines 83-98,
src/grobber/anime/models/episode.py lines 76-92,
src/grobber/utils/aitertools.py lines 88-113) -/

/-- A stream extractor instance as consulted by episode resolution: its
class `PRIORITY`, its `external` flag and the outcome of computing `links`
(`.error` models an exception raised while fetching links). -/
structure StreamObj where
  priority : Int
  external : Bool
  links : Except Unit (List (List Char))
deriving DecidableEq, Repr

/-- `Stream.working`: `len(await self.links) > 0`, with any exception
during link computation caught and turned into `false`. -/
def StreamObj.working (s : StreamObj) : Bool :=
  match s.links with
  | .ok l => decide (0 < l.length)
  | .error _ => false

/-- `Stream.working_external_self`: the stream itself iff `external` and
`working` both hold, else `None`. -/
def working_external_self (s : StreamObj) : Option StreamObj :=
  if s.external && s.working then some s else none

/-- Stable insertion into a priority-descending list; folded from the
right this realizes `list.sort(key=attrgetter("PRIORITY"), reverse=True)`
(Python's sort is stable; ties keep their original order). -/
def insertByPriority (s : StreamObj) : List StreamObj → List StreamObj
  | [] => [s]
  | t :: ts =>
    if s.priority < t.priority then t :: insertByPriority s ts else s :: t :: ts

/-- `streams.sort(key=attrgetter("PRIORITY"), reverse=True)`. -/
def sortByPriority (l : List StreamObj) : List StreamObj :=
  l.foldr insertByPriority []

/-- `itertools.groupby(all_streams, attrgetter("PRIORITY"))`: chunk
consecutive streams of equal priority. -/
def groupByPriority : List StreamObj → List (List StreamObj)
  | [] => []
  | s :: rest =>
    match groupByPriority rest with
    | [] => [[s]]
    | [] :: gs => [s] :: [] :: gs
    | (t :: g) :: gs =>
      if s.priority = t.priority then (s :: t :: g) :: gs
      else [s] :: (t :: g) :: gs

/-- One round of `get_first`'s `asyncio.wait(..., FIRST_COMPLETED)` loop:
the futures that completed during the round form the done set, of which
the code reads the result of a single member — `next(iter(done))`, here
`examined` — and then reassigns `coros` to the pending set, so the other
completed members — `dropped` — leave the race with their results never
looked at. -/
structure WaitRound where
  examined : StreamObj
  dropped : List StreamObj
deriving DecidableEq, Repr

/-- `get_first(coros)` (src/grobber/utils/aitertools.py lines 88-113)
racing `working_external_self` of the listed streams, observed under a
schedule of wait rounds: while racers remain, the round's done set
(`examined :: dropped`) leaves the race; if the examined stream's result
is truthy it is returned and the still-pending racers are cancelled;
otherwise the loop continues on the pending remainder — in particular a
truthy result of a dropped stream is lost.  The schedule-exhausted arm is
unreachable for adequate schedules: every round completes at least one
racer, so `racers.length` rounds always suffice. -/
def get_first : List WaitRound → List StreamObj → Option StreamObj
  | _, [] => none
  | [], _ :: _ => none
  | r :: rounds, x :: xs =>
    match working_external_self r.examined with
    | some s => some s
    | none =>
      get_first rounds (r.dropped.foldl (fun acc y => acc.erase y) ((x :: xs).erase r.examined))

/-- Whether a schedule only ever examines a stream still in the race
(`next(iter(done))` is always a member of the current `coros` set). -/
def examined_valid : List WaitRound → List StreamObj → Bool
  | _, [] => true
  | [], _ :: _ => true
  | r :: rounds, x :: xs =>
    (x :: xs).contains r.examined &&
      examined_valid rounds
        (r.dropped.foldl (fun acc y => acc.erase y) ((x :: xs).erase r.examined))

/-- The loop of `Episode.stream` over the priority groups (descending):
race `working_external_self` of the group's members under the group's wait
schedule, and fall to the next group when the race came up empty. -/
def episodeStreamAux (sched : List StreamObj → List WaitRound) :
    List (List StreamObj) → Option StreamObj
  | [] => none
  | g :: gs =>
    match get_first (sched g) g with
    | some s => some s
    | none => episodeStreamAux sched gs

/-- `Episode.stream`: sort all streams by priority descending, group by
priority, and race the groups in order; `sched` assigns each racing group
its nondeterministic schedule of wait rounds. -/
def episodeStream (sched : List StreamObj → List WaitRound)
    (streams : List StreamObj) : Option StreamObj :=
  episodeStreamAux sched (groupByPriority (sortByPriority streams))

/-! ### SourceAnime.episode_count (src/grobber/anime/models/anime.py lines 154-171) -/

/-- The successful result of `await self.get_episodes()`: an
index-to-episode dict or a list of episodes (episode payloads are opaque). -/
inductive EpisodesResult
  | dict (entries : List (Nat × Unit))
  | list (entries : List Unit)
deriving DecidableEq, Repr

/-- `SourceAnime.episode_count`: `0` when `get_episodes` raises; for a dict
`max(eps.keys()) + 1` with the empty-sequence `ValueError` of `max` caught
to `0`; for a list its length.  `List.max?` plays Python's `max`, `none` on
the empty iterable. -/
def episode_count (eps : Except Unit EpisodesResult) : Nat :=
  match eps with
  | .error _ => 0
  | .ok (.dict entries) =>
    match (entries.map Prod.fst).max? with
    | none => 0
    | some max_episode_index => max_episode_index + 1
  | .ok (.list entries) => entries.length

/-! ### Request.success and perform_request
(src/grobber/request.py lines 224-232 and 337-379) -/

/-- Exception kinds in play around `perform_request`.  On Python 3.7-3.10
(this code base's era) these are three distinct classes: `ClientError`
covers aiohttp's errors including `ClientResponseError`;
`asyncio.TimeoutError` is `concurrent.futures.TimeoutError`; the builtin
`TimeoutError` is an `OSError` unrelated to either. -/
inductive PyExc
  | clientError
  | asyncioTimeout
  | builtinTimeout
deriving DecidableEq, Repr

/-- One iteration's outcome of `await self.staggered_request(...)`: a
response with a status, one of the caught proxy/connection errors, or any
other exception propagating out of the attempt. -/
inductive AttemptOutcome
  | resp (status : Nat)
  | proxyError
  | connError
  | raised (e : PyExc)
deriving DecidableEq, Repr

/-- The retry loop of `perform_request`: the list holds one outcome per
loop iteration (at most `max_retries - retry_count` of them).  Proxy errors
continue unchanged; connection errors continue with `use_proxy = True`;
statuses in `{403, 429, 503, 529}` remember the response and continue with
the proxy (the `retry_count <= max_retries` side condition always holds
inside the loop); any other status breaks.  After the loop the last
remembered response is returned; if no attempt ever produced one, the
builtin `TimeoutError` is raised. -/
def perform_request_loop : List AttemptOutcome → Bool → Option Nat →
    Except PyExc (Nat × Bool)
  | [], use_proxy, last_resp =>
    match last_resp with
    | some st => .ok (st, use_proxy)
    | none => .error .builtinTimeout
  | o :: rest, use_proxy, last_resp =>
    match o with
    | .proxyError => perform_request_loop rest use_proxy last_resp
    | .connError => perform_request_loop rest true last_resp
    | .raised e => .error e
    | .resp st =>
      if st = 403 ∨ st = 429 ∨ st = 503 ∨ st = 529 then
        perform_request_loop rest true (some st)
      else .ok (st, use_proxy)

/-- `Request.perform_request` for a fresh request (`retry_count = 0`,
`resp = None`), returning the response status and the final proxy flag. -/
def perform_request (outcomes : List AttemptOutcome) (use_proxy : Bool) :
    Except PyExc (Nat × Bool) :=
  perform_request_loop outcomes use_proxy none

/-- `Request.success`: run `(await self.response).raise_for_status()` under
`except (ClientError, asyncio.TimeoutError): return False`.
`raise_for_status` raises `ClientResponseError` (a `ClientError`) on
statuses ≥ 400, which the clause catches to `False`; so are a propagated
`ClientError` or `asyncio.TimeoutError` from the fetch itself.  The builtin
`TimeoutError` from retry exhaustion matches neither clause and escapes. -/
def request_success (outcomes : List AttemptOutcome) (use_proxy : Bool) :
    Except PyExc Bool :=
  match perform_request outcomes use_proxy with
  | .ok (st, _) => .ok (decide (st < 400))
  | .error .clientError => .ok false
  | .error .asyncioTimeout => .ok false
  | .error .builtinTimeout => .error .builtinTimeout

/-! ### Index scraper (src/grobber/index_scraper/common.py lines 115-135
and 149-210) -/

/-- The per-run state of an `UpdateUntilLastStateIndexScraper`: the rolling
deque of recently seen titles (oldest first, `maxlen=200`), the first-page
titles read from the meta collection at the start of the run (`none` when
absent; `get_first_page_titles` caches the value, so it is constant within
a run), and what `upload_first_page_titles` has written to the meta
collection (consulted only by the next run). -/
structure ScraperState where
  recent_medium_titles : List (List Char)
  first_page_titles : Option (List (List Char))
  meta_first_page_titles : Option (List (List Char))
deriving DecidableEq, Repr

/-- `add_recent_media_titles` via `deque(maxlen=200).extend(titles)`:
append, evicting the oldest entries beyond 200. -/
def add_recent_media_titles (recent titles : List (List Char)) : List (List Char) :=
  let l := recent ++ titles
  l.drop (l.length - 200)

/-- `check_first_page_titles_different`: `True` when no first-page titles
are stored; else whether the stored titles are NOT a subset of the
recently seen ones. -/
def check_first_page_titles_different (stored : Option (List (List Char)))
    (recent : List (List Char)) : Bool :=
  match stored with
  | none => true
  | some old => !(old.all (fun t => recent.contains t))

/-- `UpdateUntilLastStateIndexScraper.should_continue`: the base
`IndexScraper.should_continue` (the `super()` call) always answers `True`,
so with no page media that `True` is returned unchanged; otherwise the
page's titles are pushed into the rolling buffer, the stored first-page
titles are compared against it, on page 0 the titles are uploaded as the
new first-page set, and the scraper continues iff the stored titles were
not all recently seen.  Returns the decision with the updated state. -/
def should_continue (st : ScraperState) (page_media : Option (List (List Char)))
    (current_page_index : Nat) : Bool × ScraperState :=
  match page_media with
  | none => (true, st)
  | some titles =>
    let recent := add_recent_media_titles st.recent_medium_titles titles
    let hashes_different := check_first_page_titles_different st.first_page_titles recent
    let st :=
      { st with
        recent_medium_titles := recent
        meta_first_page_titles :=
          if current_page_index = 0 then some titles else st.meta_first_page_titles }
    (hashes_different, st)

/-- One page of the scraping environment as produced by `scrape_once`:
`none` stands for `create_request` declining (no request for the page);
otherwise the extracted media titles (`none` when extraction failed) and
the next page index (`none` when there is no next page). -/
structure PageResult where
  media : Option (List (List Char))
  next : Option Nat
deriving DecidableEq, Repr

/-- `IndexScraper.scrape` for an UpdateUntilLastState scraper: starting at
page 0, upload each page's extracted media, stop when `create_request`
declines, when there is no next page index, or when `should_continue` says
stop; otherwise move to the next page.  Returns the `(page index, titles)`
uploads in order; `fuel` bounds the recursion (the Python loop is
unbounded). -/
def scrape (env : Nat → Option PageResult) : Nat → ScraperState → Nat →
    List (Nat × List (List Char)) → List (Nat × List (List Char))
  | 0, _, _, uploaded => uploaded
  | fuel + 1, st, page_index, uploaded =>
    match env page_index with
    | none => uploaded
    | some pd =>
      let uploaded :=
        match pd.media with
        | some page_media => uploaded ++ [(page_index, page_media)]
        | none => uploaded
      match pd.next with
      | none => uploaded
      | some next_page_index =>
        let cont := should_continue st pd.media page_index
        if cont.1 then scrape env fuel cont.2 next_page_index uploaded
        else uploaded

/-! ### Stateful serialization (src/grobber/stateful.py lines 101-123) -/

/-- The `__SPECIAL_MARKER = "$state"` suffix for specially-encoded keys. -/
def SPECIAL_MARKER : List Char := ['$', 's', 't', 'a', 't', 'e']

/-- Python `dict` assignment on an association list: overwrite a present
key in place, else append. -/
def dset {V : Type} : List (List Char × V) → List Char → V → List (List Char × V)
  | [], k, v => [(k, v)]
  | (k', v') :: rest, k, v =>
    if k' = k then (k, v) :: rest else (k', v') :: dset rest k v

/-- Python `dict` lookup on an association list. -/
def dget {V : Type} : List (List Char × V) → List Char → Option V
  | [], _ => none
  | (k', v') :: rest, k => if k' = k then some v' else dget rest k

/-- A `Stateful` subclass over an abstract value universe `V`: the
accumulated `ATTRS`, the `INCLUDE_CLS` flag with the qualified class name,
the `check_container_bson` test, the `serialise_special` /
`deserialise_special` hooks, and `Request.state` / `Request.from_state`. -/
structure StatefulClass (V : Type) where
  ATTRS : List (List Char)
  INCLUDE_CLS : Bool
  qualcls : V
  check_container_bson : V → Bool
  serialise_special : List Char → V → V
  deserialise_special : List Char → V → V
  req_state : V → V
  req_from_state : V → V

/-- A `Stateful` instance: its request and the computed backing slots
(attribute name → cached value; an absent key is the `_DEFAULT` sentinel,
i.e. the attribute was never computed). -/
structure StatefulInst (V : Type) where
  req : V
  fields : List (List Char × V)

/-- One step of the `for attr in self.ATTRS` loop of `Stateful.state`:
skip uncomputed attrs; store BSON-storable values directly, other values
serialised under `attr + "$state"`. -/
def state_step {V : Type} (c : StatefulClass V) (inst : StatefulInst V)
    (data : List (List Char × V)) (attr : List Char) : List (List Char × V) :=
  match dget inst.fields attr with
  | none => data
  | some val =>
    if c.check_container_bson val then dset data attr val
    else dset data (attr ++ SPECIAL_MARKER) (c.serialise_special attr val)

/-- `Stateful.state`: start from `{"req": self._req.state}` (plus `"cls"`
when `INCLUDE_CLS`), then run the attr loop. -/
def Stateful.state {V : Type} (c : StatefulClass V) (inst : StatefulInst V) :
    List (List Char × V) :=
  let data := [(['r', 'e', 'q'], c.req_state inst.req)]
  let data := if c.INCLUDE_CLS then dset data ['c', 'l', 's'] c.qualcls else data
  c.ATTRS.foldl (state_step c inst) data

/-- One step of the `for key, value in state.items()` loop of
`Stateful.from_state`: keys carrying the `"$state"` marker are stripped and
decoded through the per-class hook, every other key lands in its backing
slot unchanged. -/
def from_state_step {V : Type} (c : StatefulClass V)
    (fields : List (List Char × V)) (kv : List Char × V) : List (List Char × V) :=
  if SPECIAL_MARKER.isSuffixOf kv.1 then
    dset fields (kv.1.take (kv.1.length - SPECIAL_MARKER.length))
      (c.deserialise_special (kv.1.take (kv.1.length - SPECIAL_MARKER.length)) kv.2)
  else dset fields kv.1 kv.2

/-- `Stateful.from_state`: pop `"req"` (a missing key raises `KeyError`,
hence the `Option`), rebuild the request from it, then replay every
remaining entry into the backing slots. -/
def Stateful.from_state {V : Type} (c : StatefulClass V)
    (state : List (List Char × V)) : Option (StatefulInst V) :=
  match dget state ['r', 'e', 'q'] with
  | none => none
  | some reqdoc =>
    some
      { req := c.req_from_state reqdoc
        fields := (state.filter (fun kv => kv.1 ≠ ['r', 'e', 'q'])).foldl
          (from_state_step c) [] }

/-- Helper for the round-trip proof: the document entry `Stateful.state`
emits for one attr. -/
def entryOf {V : Type} (c : StatefulClass V) (inst : StatefulInst V)
    (attr : List Char) : Option (List Char × V) :=
  match dget inst.fields attr with
  | none => none
  | some val =>
    if c.check_container_bson val then some (attr, val)
    else some (attr ++ SPECIAL_MARKER, c.serialise_special attr val)

/-! ### Helper lemmas about the string machinery -/

theorem splitDash_of_not_mem (a : List Char) (h : '-' ∉ a) : splitDash a = [a] := by
  induction a with
  | nil => rfl
  | cons c rest ih =>
    have hc : c ≠ '-' := fun hc => h (hc ▸ List.mem_cons_self c rest)
    have hrest : '-' ∉ rest := fun hm => h (List.mem_cons_of_mem c hm)
    simp only [splitDash, if_neg hc, ih hrest]

theorem splitDash_append (a b : List Char) (h : '-' ∉ a) :
    splitDash (a ++ '-' :: b) = a :: splitDash b := by
  induction a with
  | nil => simp [splitDash]
  | cons c rest ih =>
    have hc : c ≠ '-' := fun hc => h (hc ▸ List.mem_cons_self c rest)
    have hrest : '-' ∉ rest := fun hm => h (List.mem_cons_of_mem c hm)
    simp only [List.cons_append, splitDash, if_neg hc]
    simp only [List.append_eq, ih hrest]

theorem splitDash_ne_nil (a : List Char) : splitDash a ≠ [] := by
  cases a with
  | nil => simp [splitDash]
  | cons c rest =>
    simp only [splitDash]
    by_cases hc : c = '-'
    · simp [hc]
    · simp only [if_neg hc]
      cases hsp : splitDash rest with
      | nil => simp
      | cons s ss => simp

theorem findSomeRevRange_eq_none {α : Type} (f : Nat → Option α) (n : Nat)
    (h : ∀ k, k < n → f k = none) : findSomeRevRange f n = none := by
  induction n with
  | zero => rfl
  | succ m ih =>
    simp only [findSomeRevRange, h m (Nat.lt_succ_self m)]
    exact ih fun k hk => h k (Nat.lt_succ_of_lt hk)

theorem findSomeRevRange_eq_some {α : Type} (f : Nat → Option α) (n i : Nat) (r : α)
    (hi : i < n) (hfi : f i = some r) (habove : ∀ k, i < k → k < n → f k = none) :
    findSomeRevRange f n = some r := by
  induction n with
  | zero => omega
  | succ m ih =>
    simp only [findSomeRevRange]
    rcases Nat.lt_succ_iff_lt_or_eq.mp hi with hlt | heq
    · rw [habove m hlt (Nat.lt_succ_self m)]
      exact ih hlt fun k h1 h2 => habove k h1 (Nat.lt_succ_of_lt h2)
    · subst heq
      rw [hfi]

theorem stripDub_lang_dub (lang : Language) (dubbed : Bool) :
    stripDub (lang.value ++ (if dubbed then ['_', 'd', 'u', 'b'] else [])) =
      (lang.value, dubbed) := by
  cases lang <;> cases dubbed <;> decide

/-! ### Lemmas for the medium-id normalization (claim C2) -/

theorem hexDigitChar_mediaId : ∀ m : Fin 16, isMediaIdChar (hexDigitChar m.val) = true := by
  decide

theorem pyHexAux_chars (fuel : Nat) : ∀ (n : Nat) (acc : List Char),
    (∀ c ∈ acc, isMediaIdChar c = true) → ∀ c ∈ pyHexAux fuel n acc, isMediaIdChar c = true := by
  induction fuel with
  | zero => intro n acc hacc c hc; exact hacc c hc
  | succ fuel ih =>
    intro n acc hacc c hc
    simp only [pyHexAux] at hc
    have hacc2 : ∀ c ∈ hexDigitChar (n % 16) :: acc, isMediaIdChar c = true := by
      intro d hd
      rcases List.mem_cons.mp hd with hd | hd
      · subst hd
        exact hexDigitChar_mediaId ⟨n % 16, Nat.mod_lt n (by omega)⟩
      · exact hacc d hd
    by_cases hn : n < 16
    · rw [if_pos hn] at hc
      exact hacc2 c hc
    · rw [if_neg hn] at hc
      exact ih (n / 16) _ hacc2 c hc

theorem pyHex_chars (n : Nat) : ∀ c ∈ pyHex n, isMediaIdChar c = true :=
  pyHexAux_chars (n + 1) n [] (by intro c hc; cases hc)

theorem ascii_lower_alnum_check : ∀ m : Fin 128,
    pyIsAlnum (pyLower (Char.ofNat m.val)) = true →
      isMediaIdChar (pyLower (Char.ofNat m.val)) = true := by
  decide

theorem ascii_lower_alnum (c : Char) (hc : c.toNat < 128)
    (h : pyIsAlnum (pyLower c) = true) : isMediaIdChar (pyLower c) = true := by
  have := ascii_lower_alnum_check ⟨c.toNat, hc⟩
  rw [Char.ofNat_toNat] at this
  exact this h

theorem pyStrip_subset (t : List Char) : pyStrip t ⊆ t := by
  intro c hc
  unfold pyStrip at hc
  have h1 : c ∈ pyRstrip t := (List.dropWhile_sublist pyIsSpace).subset hc
  unfold pyRstrip at h1
  rw [List.mem_reverse] at h1
  have h2 : c ∈ t.reverse := (List.dropWhile_sublist pyIsSpace).subset h1
  rwa [List.mem_reverse] at h2

theorem pyStrip_append_space (t : List Char) : pyStrip (t ++ [' ']) = pyStrip t := by
  unfold pyStrip pyRstrip
  have : (t ++ [' ']).reverse.dropWhile pyIsSpace = t.reverse.dropWhile pyIsSpace := by
    rw [List.reverse_append]
    simp [List.dropWhile_cons, pyIsSpace]
  rw [this]

/-! ### Claim C2 -/

/-- C2 counterexample: the claim says normalization drops all whitespace, so
on the title with an interior tab it would produce the two letters only; the
code keeps the tab and hex-encodes it as an ordinary non-alphanumeric
character, producing a different string. -/
theorem C2_counterexample :
    create_media_id ['a', '\t', 'b'] = ['a', '_', '9', '_', 'b'] ∧
      spec_normalize ['a', '\t', 'b'] = ['a', 'b'] ∧
      create_media_id ['a', '\t', 'b'] ≠ spec_normalize ['a', '\t', 'b'] := by
  decide

/-- C2 (amended): for ASCII titles, `create_media_id` strips surrounding
whitespace, lowercases, drops space characters (other interior whitespace is
hex-encoded like any non-alphanumeric character); consequently the result
contains only characters from the class `[0-9a-z_]`, and appending a space
to the title does not change the result. -/
theorem C2_create_media_id_props (t : List Char) (h : ∀ c ∈ t, c.toNat < 128) :
    (∀ c ∈ create_media_id t, isMediaIdChar c = true) ∧
      create_media_id (t ++ [' ']) = create_media_id t := by
  constructor
  · intro c hc
    unfold create_media_id at hc
    rw [List.mem_flatten] at hc
    obtain ⟨piece, hpiece, hcp⟩ := hc
    rw [List.mem_map] at hpiece
    obtain ⟨d, hd, rfl⟩ := hpiece
    rw [List.mem_filter] at hd
    obtain ⟨hd1, _⟩ := hd
    rw [List.mem_map] at hd1
    obtain ⟨d0, hd0, rfl⟩ := hd1
    have hascii : d0.toNat < 128 := h d0 (pyStrip_subset t hd0)
    by_cases halnum : pyIsAlnum (pyLower d0) = true
    · rw [if_pos halnum] at hcp
      rw [List.mem_singleton] at hcp
      subst hcp
      exact ascii_lower_alnum d0 hascii halnum
    · rw [if_neg halnum] at hcp
      rcases List.mem_cons.mp hcp with rfl | hcp2
      · decide
      · rcases List.mem_append.mp hcp2 with hhex | hund
        · exact pyHex_chars _ c hhex
        · rw [List.mem_singleton] at hund
          subst hund
          decide
  · unfold create_media_id
    rw [pyStrip_append_space]

/-- C2 witness: the amended theorem applied to a concrete ASCII title. -/
theorem C2_witness :
    (∀ c ∈ (['N', 'a', ' ', 'r', '!'] : List Char), c.toNat < 128) ∧
      ((∀ c ∈ create_media_id ['N', 'a', ' ', 'r', '!'], isMediaIdChar c = true) ∧
        create_media_id (['N', 'a', ' ', 'r', '!'] ++ [' ']) =
          create_media_id ['N', 'a', ' ', 'r', '!']) :=
  ⟨by decide, C2_create_media_id_props ['N', 'a', ' ', 'r', '!'] (by decide)⟩

/-! ### Claim C3 -/

theorem MediumType.fromValue_value (mt : MediumType) :
    MediumType.fromValue mt.value = some mt := by
  cases mt <;> rfl

theorem get_lang_value (lang : Language) : get_lang lang.value = some lang := by
  cases lang <;> rfl

theorem mediumType_value_ne_nil (mt : MediumType) : mt.value ≠ [] := by
  cases mt <;> decide

theorem mediumType_value_no_dash (mt : MediumType) : '-' ∉ mt.value := by
  cases mt <;> decide

theorem langdub_ne_nil (lang : Language) (dub : Bool) :
    lang.value ++ (if dub then ['_', 'd', 'u', 'b'] else []) ≠ [] := by
  cases lang <;> cases dub <;> decide

theorem langdub_no_dash (lang : Language) (dub : Bool) :
    '-' ∉ lang.value ++ (if dub then ['_', 'd', 'u', 'b'] else []) := by
  cases lang <;> cases dub <;> decide

/-- C3 counterexample: a medium id containing a dash breaks the round trip.
`create` renders the components to `"a-a-b-en"` and `parse` reads them back
as medium id `"a"` with source `"b"`, not medium id `"a-b"` with no source. -/
theorem C3_counterexample :
    UID.parse (UID.create .ANIME ['a', '-', 'b'] none .ENGLISH false) ≠
      Except.ok ⟨.ANIME, ['a', '-', 'b'], none, .ENGLISH, false⟩ ∧
      UID.parse (UID.create .ANIME ['a', '-', 'b'] none .ENGLISH false) =
        Except.ok ⟨.ANIME, ['a'], some ['b'], .ENGLISH, false⟩ := by
  decide

/-- C3 (amended): when the medium id is non-empty and dash-free and the
source is either absent or non-empty and dash-free, parsing the UID string
produced by `UID.create` recovers exactly the components; and constructing a
UID from any string and rendering it back yields the original string. -/
theorem C3_uid_roundtrip (mt : MediumType) (id : List Char) (src : Option (List Char))
    (lang : Language) (dub : Bool) (hid : id ≠ []) (hidd : '-' ∉ id)
    (hsrc : src = none ∨ ∃ s, src = some s ∧ s ≠ [] ∧ '-' ∉ s) :
    UID.parse (UID.create mt id src lang dub) = .ok ⟨mt, id, src, lang, dub⟩ ∧
      ∀ s : List Char, (UID.ofString s).render = s := by
  refine ⟨?_, fun s => rfl⟩
  rcases hsrc with rfl | ⟨s, rfl, hs, hsd⟩
  · have h1 : UID.create mt id none lang dub =
        mt.value ++ '-' :: (id ++ '-' ::
          (lang.value ++ (if dub then ['_', 'd', 'u', 'b'] else []))) := by
      simp [UID.create]
    have hsplit : splitDash (UID.create mt id none lang dub) =
        [mt.value, id, lang.value ++ (if dub then ['_', 'd', 'u', 'b'] else [])] := by
      rw [h1, splitDash_append _ _ (mediumType_value_no_dash mt),
        splitDash_append _ _ hidd, splitDash_of_not_mem _ (langdub_no_dash lang dub)]
    have hm : RE_UID_PARSER_match (UID.create mt id none lang dub) =
        some (mt.value, id, none, lang.value, dub) := by
      unfold RE_UID_PARSER_match
      rw [hsplit]
      have hcond : mt.value ≠ [] ∧ id ≠ [] ∧
          (lang.value ++ if dub then ['_', 'd', 'u', 'b'] else []) ≠ [] :=
        ⟨mediumType_value_ne_nil mt, hid, langdub_ne_nil lang dub⟩
      simp only [if_pos hcond, stripDub_lang_dub]
    unfold UID.parse
    rw [hm]
    simp only [MediumType.fromValue_value, get_lang_value]
  · have h1 : UID.create mt id (some s) lang dub =
        mt.value ++ '-' :: (id ++ '-' :: (s ++ '-' ::
          (lang.value ++ (if dub then ['_', 'd', 'u', 'b'] else [])))) := by
      simp [UID.create, hs, List.append_assoc]
    have hsplit : splitDash (UID.create mt id (some s) lang dub) =
        [mt.value, id, s, lang.value ++ (if dub then ['_', 'd', 'u', 'b'] else [])] := by
      rw [h1, splitDash_append _ _ (mediumType_value_no_dash mt),
        splitDash_append _ _ hidd, splitDash_append _ _ hsd,
        splitDash_of_not_mem _ (langdub_no_dash lang dub)]
    have hm : RE_UID_PARSER_match (UID.create mt id (some s) lang dub) =
        some (mt.value, id, some s, lang.value, dub) := by
      unfold RE_UID_PARSER_match
      rw [hsplit]
      have hcond : mt.value ≠ [] ∧ id ≠ [] ∧ s ≠ [] ∧
          (lang.value ++ if dub then ['_', 'd', 'u', 'b'] else []) ≠ [] :=
        ⟨mediumType_value_ne_nil mt, hid, hs, langdub_ne_nil lang dub⟩
      simp only [if_pos hcond, stripDub_lang_dub]
    unfold UID.parse
    rw [hm]
    simp only [MediumType.fromValue_value, get_lang_value]

/-- C3 witness: the amended round trip at concrete components. -/
theorem C3_witness :
    UID.parse (UID.create .ANIME ['n', 'a', 'r', 'u', 't', 'o']
        (some ['g', 'o', 'g', 'o']) .ENGLISH true) =
      .ok ⟨.ANIME, ['n', 'a', 'r', 'u', 't', 'o'], some ['g', 'o', 'g', 'o'],
        .ENGLISH, true⟩ ∧
      ∀ s : List Char, (UID.ofString s).render = s :=
  C3_uid_roundtrip .ANIME ['n', 'a', 'r', 'u', 't', 'o'] (some ['g', 'o', 'g', 'o'])
    .ENGLISH true (by decide) (by decide)
    (Or.inr ⟨['g', 'o', 'g', 'o'], rfl, by decide, by decide⟩)

/-! ### Claim C4: the legacy grammar -/

theorem legacyInnerMatch_no_dash (T : List Char) (hTd : '-' ∉ T) :
    legacyInnerMatch T = none := by
  unfold legacyInnerMatch
  apply findSomeRevRange_eq_none
  intro j _
  have hne : T[j]? ≠ some '-' := fun hc => hTd (List.getElem?_mem hc)
  exact if_neg (fun hcond => hne hcond.1)

theorem legacyInnerMatch_decomposed (id T : List Char) (hid : id ≠ [])
    (hidd : '-' ∉ id) (hT : T ≠ []) (hTd : '-' ∉ T) :
    legacyInnerMatch (id ++ '-' :: T) = some (id, (stripDub T).1, (stripDub T).2) := by
  have hTpos : 0 < T.length := List.length_pos.mpr hT
  have hidpos : 0 < id.length := List.length_pos.mpr hid
  unfold legacyInnerMatch
  apply findSomeRevRange_eq_some _ _ id.length
  · simp only [List.length_append, List.length_cons]
    omega
  · have h1 : (id ++ '-' :: T)[id.length]? = some '-' := by
      rw [List.getElem?_append_right (Nat.le_refl _)]
      simp
    have h3 : id.length + 2 ≤ (id ++ '-' :: T).length := by
      simp only [List.length_append, List.length_cons]
      omega
    rw [if_pos ⟨h1, hidpos, h3⟩]
    have hdrop : (id ++ '-' :: T).drop (id.length + 1) = T := by
      rw [List.append_cons id '-' T]
      exact List.drop_left' (by simp)
    have htake : (id ++ '-' :: T).take id.length = id := List.take_left' rfl
    rw [hdrop, htake]
  · intro k hk hkn
    have hge : id.length ≤ k := Nat.le_of_lt hk
    have h4 : (id ++ '-' :: T)[k]? = ('-' :: T)[k - id.length]? :=
      List.getElem?_append_right hge
    have hm : k - id.length = (k - id.length - 1) + 1 := by omega
    have h5 : (id ++ '-' :: T)[k]? = T[k - id.length - 1]? := by
      rw [h4, hm, List.getElem?_cons_succ, Nat.add_sub_cancel]
    have hne : (id ++ '-' :: T)[k]? ≠ some '-' := by
      rw [h5]
      intro hc
      exact hTd (List.getElem?_mem hc)
    exact if_neg (fun hcond => hne hcond.1)

theorem legacy_match_decomposed (src id T : List Char) (hsrc : src ≠ [])
    (hid : id ≠ []) (hidd : '-' ∉ id) (hT : T ≠ []) (hTd : '-' ∉ T) :
    RE_LEGACY_UID_PARSER_match (src ++ '-' :: (id ++ '-' :: T)) =
      some (src, id, (stripDub T).1, (stripDub T).2) := by
  have hTpos : 0 < T.length := List.length_pos.mpr hT
  have hidpos : 0 < id.length := List.length_pos.mpr hid
  have hsrcpos : 0 < src.length := List.length_pos.mpr hsrc
  unfold RE_LEGACY_UID_PARSER_match
  apply findSomeRevRange_eq_some _ _ src.length
  · simp only [List.length_append, List.length_cons]
    omega
  · have h1 : (src ++ '-' :: (id ++ '-' :: T))[src.length]? = some '-' := by
      rw [List.getElem?_append_right (Nat.le_refl _)]
      simp
    rw [if_pos ⟨h1, hsrcpos⟩]
    have hdrop : (src ++ '-' :: (id ++ '-' :: T)).drop (src.length + 1) =
        id ++ '-' :: T := by
      rw [List.append_cons src '-' _]
      exact List.drop_left' (by simp)
    have htake : (src ++ '-' :: (id ++ '-' :: T)).take src.length = src :=
      List.take_left' rfl
    rw [hdrop, legacyInnerMatch_decomposed id T hid hidd hT hTd, htake]
    rfl
  · intro k hk hkn
    have hge : src.length ≤ k := Nat.le_of_lt hk
    have h4 : (src ++ '-' :: (id ++ '-' :: T))[k]? = ('-' :: (id ++ '-' :: T))[k - src.length]? :=
      List.getElem?_append_right hge
    have hm : k - src.length = (k - src.length - 1) + 1 := by omega
    have h5 : (src ++ '-' :: (id ++ '-' :: T))[k]? = (id ++ '-' :: T)[k - src.length - 1]? := by
      rw [h4, hm, List.getElem?_cons_succ, Nat.add_sub_cancel]
    set m := k - src.length - 1 with hmdef
    rcases Nat.lt_trichotomy m id.length with hlt | heq | hgt
    · have h6 : (id ++ '-' :: T)[m]? = id[m]? := List.getElem?_append_left hlt
      have hne : (src ++ '-' :: (id ++ '-' :: T))[k]? ≠ some '-' := by
        rw [h5, h6]
        intro hc
        exact hidd (List.getElem?_mem hc)
      exact if_neg (fun hcond => hne hcond.1)
    · -- k is the separator in front of the language segment: the inner
      -- match then runs on the dash-free tail and fails.
      have h6 : (id ++ '-' :: T)[m]? = some '-' := by
        rw [heq, List.getElem?_append_right (Nat.le_refl _)]
        simp
      have hk2 : 1 ≤ k := by omega
      rw [if_pos ⟨by rw [h5, h6], hk2⟩]
      have hkval : k = src.length + 1 + id.length := by omega
      have hdrop2 : (src ++ '-' :: (id ++ '-' :: T)).drop (k + 1) = T := by
        rw [List.append_cons src '-' _, List.append_cons id '-' T, ← List.append_assoc]
        refine List.drop_left' ?_
        simp only [List.length_append, List.length_cons, List.length_nil]
        omega
      rw [hdrop2, legacyInnerMatch_no_dash T hTd]
      rfl
    · have h6 : (id ++ '-' :: T)[m]? = ('-' :: T)[m - id.length]? :=
        List.getElem?_append_right (Nat.le_of_lt hgt)
      have hm2 : m - id.length = (m - id.length - 1) + 1 := by omega
      have hne : (src ++ '-' :: (id ++ '-' :: T))[k]? ≠ some '-' := by
        rw [h5, h6, hm2, List.getElem?_cons_succ]
        intro hc
        exact hTd (List.getElem?_mem hc)
      exact if_neg (fun hcond => hne hcond.1)

/-- The canonical regex on a two-dash string with dash-free non-empty
segments: it matches with no optional source group. -/
theorem canonical_match_two_dash (a b : List Char) (lang : Language) (dub : Bool)
    (ha : a ≠ []) (had : '-' ∉ a) (hb : b ≠ []) (hbd : '-' ∉ b) :
    RE_UID_PARSER_match (a ++ '-' :: (b ++ '-' ::
        (lang.value ++ (if dub then ['_', 'd', 'u', 'b'] else [])))) =
      some (a, b, none, lang.value, dub) := by
  have hsplit : splitDash (a ++ '-' :: (b ++ '-' ::
      (lang.value ++ (if dub then ['_', 'd', 'u', 'b'] else [])))) =
      [a, b, lang.value ++ (if dub then ['_', 'd', 'u', 'b'] else [])] := by
    rw [splitDash_append _ _ had, splitDash_append _ _ hbd,
      splitDash_of_not_mem _ (langdub_no_dash lang dub)]
  unfold RE_UID_PARSER_match
  rw [hsplit]
  have hcond : a ≠ [] ∧ b ≠ [] ∧
      (lang.value ++ if dub then ['_', 'd', 'u', 'b'] else []) ≠ [] :=
    ⟨ha, hb, langdub_ne_nil lang dub⟩
  simp only [if_pos hcond, stripDub_lang_dub]

/-- C4 counterexample: `"gogoanime-naruto-en"` has the legacy form
`source-mediumId-lang`, but the canonical regex also matches it, so the
parser commits to the canonical branch and `MediumType("gogoanime")` raises
`ValueError` — not a parse yielding source `"gogoanime"`, and not
`UIDInvalid`. -/
theorem C4_counterexample :
    UID.parse "gogoanime-naruto-en".toList = .error .valueError ∧
      UID.parse "gogoanime-naruto-en".toList ≠
        .ok ⟨.ANIME, "naruto".toList, some "gogoanime".toList, .ENGLISH, false⟩ := by
  decide

/-- C4 (amended): a legacy-form string `source-mediumId-lang[_dub]` parses
as medium type anime with the given source, medium id and language when the
canonical regex does not match it; a string matched by neither regex fails
with `UIDInvalid`.  When the canonical regex does match a legacy-form
string with a dash-free source, the parser commits to the canonical
reading: if the source is not a medium-type value the `MediumType` lookup
raises `ValueError`, which escapes the parser, and if the source is a
medium-type value (`"a"` or `"m"`) the parse silently succeeds with the
source consumed as the medium type and no source component. -/
theorem C4_legacy_parse (src id : List Char) (lang : Language) (dub : Bool)
    (hsrc : src ≠ []) (hid : id ≠ []) (hidd : '-' ∉ id)
    (hcanon : RE_UID_PARSER_match (src ++ '-' :: (id ++ '-' ::
      (lang.value ++ (if dub then ['_', 'd', 'u', 'b'] else [])))) = none) :
    UID.parse (src ++ '-' :: (id ++ '-' ::
        (lang.value ++ (if dub then ['_', 'd', 'u', 'b'] else [])))) =
      .ok ⟨.ANIME, id, some src, lang, dub⟩ ∧
      (∀ s : List Char, RE_UID_PARSER_match s = none →
        RE_LEGACY_UID_PARSER_match s = none → UID.parse s = .error .uidInvalid) ∧
      (∀ (src2 id2 : List Char) (lang2 : Language) (dub2 : Bool),
        src2 ≠ [] → '-' ∉ src2 → MediumType.fromValue src2 = none →
        id2 ≠ [] → '-' ∉ id2 →
        UID.parse (src2 ++ '-' :: (id2 ++ '-' ::
            (lang2.value ++ (if dub2 then ['_', 'd', 'u', 'b'] else [])))) =
          .error .valueError) ∧
      (∀ (mt : MediumType) (id2 : List Char) (lang2 : Language) (dub2 : Bool),
        id2 ≠ [] → '-' ∉ id2 →
        UID.parse (mt.value ++ '-' :: (id2 ++ '-' ::
            (lang2.value ++ (if dub2 then ['_', 'd', 'u', 'b'] else [])))) =
          .ok ⟨mt, id2, none, lang2, dub2⟩) := by
  refine ⟨?_, ?_, ?_, ?_⟩
  · unfold UID.parse
    rw [hcanon, legacy_match_decomposed src id _ hsrc hid hidd
      (langdub_ne_nil lang dub) (langdub_no_dash lang dub), stripDub_lang_dub]
    simp only [get_lang_value]
  · intro s h1 h2
    unfold UID.parse
    rw [h1, h2]
  · intro src2 id2 lang2 dub2 hs2 hsd2 hnv hi2 hid2
    unfold UID.parse
    rw [canonical_match_two_dash src2 id2 lang2 dub2 hs2 hsd2 hi2 hid2]
    simp only [hnv]
  · intro mt id2 lang2 dub2 hi2 hid2
    unfold UID.parse
    rw [canonical_match_two_dash mt.value id2 lang2 dub2
      (mediumType_value_ne_nil mt) (mediumType_value_no_dash mt) hi2 hid2]
    simp only [MediumType.fromValue_value, get_lang_value]

/-- C4 witness: the amended theorem at a concrete legacy UID whose source
contains dashes, so the canonical regex fails and the legacy branch runs;
the later conjuncts cover strings the canonical regex captures. -/
theorem C4_witness :
    UID.parse ("my-src-x".toList ++ '-' :: ("naruto".toList ++ '-' ::
        (Language.ENGLISH.value ++ (if true then ['_', 'd', 'u', 'b'] else [])))) =
      .ok ⟨.ANIME, "naruto".toList, some "my-src-x".toList, .ENGLISH, true⟩ ∧
      (∀ s : List Char, RE_UID_PARSER_match s = none →
        RE_LEGACY_UID_PARSER_match s = none → UID.parse s = .error .uidInvalid) ∧
      (∀ (src2 id2 : List Char) (lang2 : Language) (dub2 : Bool),
        src2 ≠ [] → '-' ∉ src2 → MediumType.fromValue src2 = none →
        id2 ≠ [] → '-' ∉ id2 →
        UID.parse (src2 ++ '-' :: (id2 ++ '-' ::
            (lang2.value ++ (if dub2 then ['_', 'd', 'u', 'b'] else [])))) =
          .error .valueError) ∧
      (∀ (mt : MediumType) (id2 : List Char) (lang2 : Language) (dub2 : Bool),
        id2 ≠ [] → '-' ∉ id2 →
        UID.parse (mt.value ++ '-' :: (id2 ++ '-' ::
            (lang2.value ++ (if dub2 then ['_', 'd', 'u', 'b'] else [])))) =
          .ok ⟨mt, id2, none, lang2, dub2⟩) :=
  C4_legacy_parse "my-src-x".toList "naruto".toList .ENGLISH true
    (by decide) (by decide) (by decide) (by decide)

/-! ### Claim C1 -/

/-- C1 counterexample: group counts `[5, 10]`, candidate count `3` with an
identical group key.  The claim's band `[min - 2, max + 2] = [3, 12]`
accepts `3`, but the code band `[min(5, 8), max(10, 7)] = [5, 10]` rejects
it. -/
theorem C1_counterexample :
    could_contain ⟨.ENGLISH, false, ['x'], [5, 10]⟩ ⟨.ENGLISH, false, ['x'], some 3⟩
        = false ∧
      ([5, 10] : List Int).min? = some 5 ∧ ([5, 10] : List Int).max? = some 10 ∧
      (5 : Int) - 2 ≤ 3 ∧ (3 : Int) ≤ 10 + 2 := by
  decide

/-- C1 (amended): for a candidate whose language, dub flag and media id
equal the group's, `could_contain` accepts iff either the group has no
episode counts, or the candidate's count is known and lies between
`min(minCount, maxCount - 2)` and `max(maxCount, minCount + 2)` (which is
`[min - 2, max + 2]` only when all counts coincide); a candidate whose
count cannot be fetched is rejected whenever counts exist. -/
theorem C1_could_contain_range (g : AnimeGroup) (a : CandidateAnime)
    (hl : g.language = a.language) (hd : g.is_dub = a.is_dub)
    (hm : g.media_id = a.media_id) :
    (g.episode_counts = [] → could_contain g a = true) ∧
      (a.episode_count = none → g.episode_counts ≠ [] → could_contain g a = false) ∧
      (∀ rmin rmax e : Int, g.episode_counts.min? = some rmin →
        g.episode_counts.max? = some rmax → a.episode_count = some e →
        (could_contain g a = true ↔
          min rmin (rmax - 2) ≤ e ∧ e ≤ max rmax (rmin + 2))) := by
  unfold could_contain
  rw [if_neg (fun hc => hc hl), if_neg (fun hc => hc hd), if_neg (fun hc => hc hm)]
  refine ⟨?_, ?_, ?_⟩
  · intro hnil
    rw [hnil]
    simp
  · intro hnone hne
    obtain ⟨rmax, hrmax⟩ := Option.ne_none_iff_exists'.mp
      (fun hc => hne (List.max?_eq_none_iff.mp hc))
    obtain ⟨rmin, hrmin⟩ := Option.ne_none_iff_exists'.mp
      (fun hc => hne (List.min?_eq_none_iff.mp hc))
    rw [hrmax, hrmin, hnone]
  · intro rmin rmax e hrmin hrmax he
    rw [hrmax, hrmin, he]
    simp

/-- C1 witness: the amended characterization at concrete data; the third
component evaluates the in-band and out-of-band cases. -/
theorem C1_witness :
    ((⟨.ENGLISH, false, ['x'], [5, 10]⟩ : AnimeGroup).episode_counts = [] →
        could_contain ⟨.ENGLISH, false, ['x'], [5, 10]⟩
          ⟨.ENGLISH, false, ['x'], some 7⟩ = true) ∧
      ((⟨.ENGLISH, false, ['x'], some 7⟩ : CandidateAnime).episode_count = none →
        (⟨.ENGLISH, false, ['x'], [5, 10]⟩ : AnimeGroup).episode_counts ≠ [] →
        could_contain ⟨.ENGLISH, false, ['x'], [5, 10]⟩
          ⟨.ENGLISH, false, ['x'], some 7⟩ = false) ∧
      (∀ rmin rmax e : Int,
        (⟨.ENGLISH, false, ['x'], [5, 10]⟩ : AnimeGroup).episode_counts.min? = some rmin →
        (⟨.ENGLISH, false, ['x'], [5, 10]⟩ : AnimeGroup).episode_counts.max? = some rmax →
        (⟨.ENGLISH, false, ['x'], some 7⟩ : CandidateAnime).episode_count = some e →
        (could_contain ⟨.ENGLISH, false, ['x'], [5, 10]⟩
            ⟨.ENGLISH, false, ['x'], some 7⟩ = true ↔
          min rmin (rmax - 2) ≤ e ∧ e ≤ max rmax (rmin + 2))) :=
  C1_could_contain_range ⟨.ENGLISH, false, ['x'], [5, 10]⟩
    ⟨.ENGLISH, false, ['x'], some 7⟩ rfl rfl rfl

/-! ### Claims C5 and C6: sorting, grouping and racing lemmas -/

theorem insertByPriority_perm (s : StreamObj) (l : List StreamObj) :
    List.Perm (insertByPriority s l) (s :: l) := by
  induction l with
  | nil => exact List.Perm.refl _
  | cons t ts ih =>
    unfold insertByPriority
    by_cases h : s.priority < t.priority
    · rw [if_pos h]
      exact (ih.cons t).trans (List.Perm.swap s t ts)
    · rw [if_neg h]

theorem sortByPriority_perm (l : List StreamObj) : List.Perm (sortByPriority l) l := by
  induction l with
  | nil => exact List.Perm.refl _
  | cons s ts ih =>
    unfold sortByPriority
    simp only [List.foldr_cons]
    exact (insertByPriority_perm s _).trans (ih.cons s)

theorem mem_insertByPriority {x s : StreamObj} {l : List StreamObj} :
    x ∈ insertByPriority s l ↔ x = s ∨ x ∈ l := by
  rw [(insertByPriority_perm s l).mem_iff, List.mem_cons]

theorem insertByPriority_pairwise (s : StreamObj) (l : List StreamObj)
    (h : List.Pairwise (fun a b => b.priority ≤ a.priority) l) :
    List.Pairwise (fun a b => b.priority ≤ a.priority) (insertByPriority s l) := by
  induction l with
  | nil => exact List.pairwise_singleton _ s
  | cons t ts ih =>
    rw [List.pairwise_cons] at h
    obtain ⟨ht, hts⟩ := h
    unfold insertByPriority
    by_cases hlt : s.priority < t.priority
    · rw [if_pos hlt]
      rw [List.pairwise_cons]
      refine ⟨?_, ih hts⟩
      intro x hx
      rcases mem_insertByPriority.mp hx with rfl | hx
      · exact le_of_lt hlt
      · exact ht x hx
    · rw [if_neg hlt]
      rw [List.pairwise_cons]
      refine ⟨?_, List.pairwise_cons.mpr ⟨ht, hts⟩⟩
      intro x hx
      rcases List.mem_cons.mp hx with rfl | hx
      · exact le_of_not_lt hlt
      · exact le_trans (ht x hx) (le_of_not_lt hlt)

theorem sortByPriority_sorted (l : List StreamObj) :
    List.Pairwise (fun a b => b.priority ≤ a.priority) (sortByPriority l) := by
  induction l with
  | nil => exact List.Pairwise.nil
  | cons s ts ih =>
    unfold sortByPriority
    simp only [List.foldr_cons]
    exact insertByPriority_pairwise s _ ih

theorem groupByPriority_flatten (l : List StreamObj) :
    (groupByPriority l).flatten = l := by
  induction l with
  | nil => rfl
  | cons s rest ih =>
    unfold groupByPriority
    cases hG : groupByPriority rest with
    | nil =>
      rw [hG] at ih
      simp only [List.flatten_nil] at ih
      simp [← ih]
    | cons g gs =>
      rw [hG] at ih
      cases g with
      | nil => simpa using ih
      | cons t g' =>
        dsimp only
        by_cases hpr : s.priority = t.priority
        · rw [if_pos hpr]
          simpa using ih
        · rw [if_neg hpr]
          simpa using ih

theorem groupByPriority_ne_nil (l : List StreamObj) :
    ∀ g ∈ groupByPriority l, g ≠ [] := by
  induction l with
  | nil => intro g hg; cases hg
  | cons s rest ih =>
    unfold groupByPriority
    cases hG : groupByPriority rest with
    | nil =>
      intro g hg
      rcases List.mem_singleton.mp hg with rfl
      simp
    | cons g0 gs =>
      cases g0 with
      | nil =>
        exact absurd rfl (ih [] (by rw [hG]; exact List.mem_cons_self _ _))
      | cons t g' =>
        dsimp only
        by_cases hpr : s.priority = t.priority
        · rw [if_pos hpr]
          intro g hg
          rcases List.mem_cons.mp hg with rfl | hg
          · simp
          · exact ih g (by rw [hG]; exact List.mem_cons_of_mem _ hg)
        · rw [if_neg hpr]
          intro g hg
          rcases List.mem_cons.mp hg with rfl | hg
          · simp
          · exact ih g (by rw [hG]; exact hg)

theorem groupByPriority_same_prio (l : List StreamObj) :
    ∀ g ∈ groupByPriority l, ∀ a ∈ g, ∀ b ∈ g, a.priority = b.priority := by
  induction l with
  | nil => intro g hg; cases hg
  | cons s rest ih =>
    unfold groupByPriority
    cases hG : groupByPriority rest with
    | nil =>
      intro g hg a ha b hb
      rcases List.mem_singleton.mp hg with rfl
      rcases List.mem_singleton.mp ha with rfl
      rcases List.mem_singleton.mp hb with rfl
      rfl
    | cons g0 gs =>
      have ihG : ∀ g ∈ g0 :: gs, ∀ a ∈ g, ∀ b ∈ g, a.priority = b.priority := by
        intro g hg
        exact ih g (by rw [hG]; exact hg)
      cases g0 with
      | nil =>
        intro g hg a ha b hb
        rcases List.mem_cons.mp hg with rfl | hg
        · rcases List.mem_singleton.mp ha with rfl
          rcases List.mem_singleton.mp hb with rfl
          rfl
        · exact ihG g hg a ha b hb
      | cons t g' =>
        have hsame : ∀ x ∈ t :: g', x.priority = t.priority := by
          intro x hx
          exact ihG (t :: g') (List.mem_cons_self _ _) x hx t (List.mem_cons_self _ _)
        dsimp only
        by_cases hpr : s.priority = t.priority
        · rw [if_pos hpr]
          intro g hg a ha b hb
          rcases List.mem_cons.mp hg with rfl | hg
          · have key : ∀ x ∈ s :: t :: g', x.priority = t.priority := by
              intro x hx
              rcases List.mem_cons.mp hx with rfl | hx
              · exact hpr
              · exact hsame x hx
            rw [key a ha, key b hb]
          · exact ihG g (List.mem_cons_of_mem _ hg) a ha b hb
        · rw [if_neg hpr]
          intro g hg a ha b hb
          rcases List.mem_cons.mp hg with rfl | hg
          · rcases List.mem_singleton.mp ha with rfl
            rcases List.mem_singleton.mp hb with rfl
            rfl
          · exact ihG g hg a ha b hb

theorem groupByPriority_strict_desc (l : List StreamObj)
    (hl : List.Pairwise (fun a b => b.priority ≤ a.priority) l) :
    List.Pairwise (fun g h => ∀ a ∈ g, ∀ b ∈ h, b.priority < a.priority)
      (groupByPriority l) := by
  induction l with
  | nil => exact List.Pairwise.nil
  | cons s rest ih =>
    rw [List.pairwise_cons] at hl
    obtain ⟨hs, hrest⟩ := hl
    have IH := ih hrest
    unfold groupByPriority
    cases hG : groupByPriority rest with
    | nil => exact List.pairwise_singleton _ _
    | cons g0 gs =>
      rw [hG] at IH
      have hflat : (g0 :: gs).flatten = rest := by
        rw [← hG]
        exact groupByPriority_flatten rest
      cases g0 with
      | nil =>
        exact absurd rfl
          (groupByPriority_ne_nil rest [] (by rw [hG]; exact List.mem_cons_self _ _))
      | cons t g' =>
        dsimp only
        rw [List.pairwise_cons] at IH
        obtain ⟨IHhead, IHtail⟩ := IH
        have hsame := groupByPriority_same_prio rest (t :: g')
          (by rw [hG]; exact List.mem_cons_self _ _)
        by_cases hpr : s.priority = t.priority
        · rw [if_pos hpr]
          rw [List.pairwise_cons]
          refine ⟨?_, IHtail⟩
          intro h hh a ha b hb
          rcases List.mem_cons.mp ha with rfl | ha
          · rw [hpr]
            exact IHhead h hh t (List.mem_cons_self _ _) b hb
          · exact IHhead h hh a ha b hb
        · rw [if_neg hpr]
          rw [List.pairwise_cons]
          refine ⟨?_, List.pairwise_cons.mpr ⟨IHhead, IHtail⟩⟩
          intro h hh a ha b hb
          rcases List.mem_singleton.mp ha with rfl
          rcases List.mem_cons.mp hh with rfl | hh
          · have hbt : b.priority = t.priority := hsame b hb t (List.mem_cons_self _ _)
            have hble : b.priority ≤ a.priority := hs b (by
              rw [← hflat]
              exact List.mem_flatten.mpr ⟨t :: g', List.mem_cons_self _ _, hb⟩)
            refine lt_of_le_of_ne hble ?_
            rw [hbt]
            exact fun hc => hpr hc.symm
          · have hbt : b.priority < t.priority := IHhead h hh t (List.mem_cons_self _ _) b hb
            have hts : t.priority ≤ a.priority := hs t (by
              rw [← hflat]
              exact List.mem_flatten.mpr ⟨t :: g', List.mem_cons_self _ _,
                List.mem_cons_self _ _⟩)
            exact lt_of_lt_of_le hbt hts

theorem working_external_self_eq_some {x y : StreamObj}
    (h : working_external_self x = some y) : y = x := by
  unfold working_external_self at h
  by_cases hc : (x.external && x.working) = true
  · rw [if_pos hc] at h
    exact (Option.some.inj h).symm
  · rw [if_neg hc] at h
    cases h

theorem foldl_erase_subset (ds : List StreamObj) :
    ∀ init : List StreamObj, (ds.foldl (fun acc y => acc.erase y) init) ⊆ init := by
  induction ds with
  | nil => intro init x hx; exact hx
  | cons d ds ih =>
    intro init
    rw [List.foldl_cons]
    intro x hx
    exact List.erase_subset _ _ (ih (init.erase d) hx)

theorem get_first_cons (r : WaitRound) (rounds : List WaitRound) (x : StreamObj)
    (xs : List StreamObj) :
    get_first (r :: rounds) (x :: xs) =
      match working_external_self r.examined with
      | some s => some s
      | none =>
        get_first rounds
          (r.dropped.foldl (fun acc y => acc.erase y) ((x :: xs).erase r.examined)) := rfl

theorem examined_valid_cons (r : WaitRound) (rounds : List WaitRound) (x : StreamObj)
    (xs : List StreamObj) :
    examined_valid (r :: rounds) (x :: xs) =
      ((x :: xs).contains r.examined &&
        examined_valid rounds
          (r.dropped.foldl (fun acc y => acc.erase y) ((x :: xs).erase r.examined))) := rfl

theorem get_first_sound :
    ∀ (schedule : List WaitRound) (racers : List StreamObj) (s : StreamObj),
      examined_valid schedule racers = true → get_first schedule racers = some s →
      s ∈ racers ∧ working_external_self s = some s := by
  intro schedule
  induction schedule with
  | nil =>
    intro racers s _ h
    cases racers with
    | nil => cases h
    | cons x xs => cases h
  | cons r rounds ih =>
    intro racers s hv h
    cases racers with
    | nil => cases h
    | cons x xs =>
      rw [examined_valid_cons, Bool.and_eq_true] at hv
      obtain ⟨hmemb, hvrest⟩ := hv
      have hmem : r.examined ∈ x :: xs := List.elem_iff.mp hmemb
      rw [get_first_cons] at h
      cases hw : working_external_self r.examined with
      | some y =>
        rw [hw] at h
        have hsy : s = y := (Option.some.inj h).symm
        subst hsy
        have hyx : s = r.examined := working_external_self_eq_some hw
        subst hyx
        exact ⟨hmem, hw⟩
      | none =>
        rw [hw] at h
        obtain ⟨hsmem, hws⟩ := ih _ s hvrest h
        refine ⟨?_, hws⟩
        exact List.erase_subset _ _ (foldl_erase_subset r.dropped _ hsmem)

theorem get_first_nodrop_none_iff :
    ∀ (schedule : List WaitRound) (racers : List StreamObj),
      examined_valid schedule racers = true →
      (∀ r ∈ schedule, r.dropped = []) →
      racers.length ≤ schedule.length →
      (get_first schedule racers = none ↔
        ∀ x ∈ racers, working_external_self x = none) := by
  intro schedule
  induction schedule with
  | nil =>
    intro racers _ _ hlen
    have hr : racers = [] := List.length_eq_zero.mp (Nat.le_zero.mp hlen)
    subst hr
    simp [get_first]
  | cons r rounds ih =>
    intro racers hv hnd hlen
    cases racers with
    | nil => simp [get_first]
    | cons x xs =>
      rw [examined_valid_cons, Bool.and_eq_true] at hv
      obtain ⟨hmemb, hvrest⟩ := hv
      have hmem : r.examined ∈ x :: xs := List.elem_iff.mp hmemb
      have hdr : r.dropped = [] := hnd r (List.mem_cons_self _ _)
      rw [get_first_cons]
      cases hw : working_external_self r.examined with
      | some y =>
        refine iff_of_false (fun hc => Option.noConfusion hc) ?_
        intro hall
        rw [hall r.examined hmem] at hw
        cases hw
      | none =>
        show get_first rounds
            (r.dropped.foldl (fun acc y => acc.erase y) ((x :: xs).erase r.examined)) =
            none ↔ _
        rw [hdr] at hvrest ⊢
        simp only [List.foldl_nil] at hvrest ⊢
        have hlen2 : ((x :: xs).erase r.examined).length ≤ rounds.length := by
          rw [List.length_erase_of_mem hmem]
          simp only [List.length_cons] at hlen ⊢
          omega
        rw [ih _ hvrest (fun r2 h2 => hnd r2 (List.mem_cons_of_mem _ h2)) hlen2]
        have hperm := List.perm_cons_erase hmem
        constructor
        · intro hall z hz
          rcases List.mem_cons.mp (hperm.mem_iff.mp hz) with rfl | hz2
          · exact hw
          · exact hall z hz2
        · intro hall z hz
          exact hall z (List.erase_subset _ _ hz)

theorem get_first_nodrop_unique :
    ∀ (schedule : List WaitRound) (racers : List StreamObj) (s : StreamObj),
      examined_valid schedule racers = true →
      (∀ r ∈ schedule, r.dropped = []) →
      racers.length ≤ schedule.length →
      s ∈ racers → working_external_self s = some s →
      (∀ x ∈ racers, working_external_self x ≠ none → x = s) →
      get_first schedule racers = some s := by
  intro schedule
  induction schedule with
  | nil =>
    intro racers s _ _ hlen hmem _ _
    have hr : racers = [] := List.length_eq_zero.mp (Nat.le_zero.mp hlen)
    subst hr
    cases hmem
  | cons r rounds ih =>
    intro racers s hv hnd hlen hmem hws huniq
    cases racers with
    | nil => cases hmem
    | cons x xs =>
      rw [examined_valid_cons, Bool.and_eq_true] at hv
      obtain ⟨hmemb, hvrest⟩ := hv
      have hmeme : r.examined ∈ x :: xs := List.elem_iff.mp hmemb
      have hdr : r.dropped = [] := hnd r (List.mem_cons_self _ _)
      rw [get_first_cons]
      cases hw : working_external_self r.examined with
      | some y =>
        show some y = some s
        have hyx : y = r.examined := working_external_self_eq_some hw
        have hxs : r.examined = s := huniq r.examined hmeme
          (by rw [hw]; exact fun hc => Option.noConfusion hc)
        rw [hyx, hxs]
      | none =>
        show get_first rounds
            (r.dropped.foldl (fun acc y => acc.erase y) ((x :: xs).erase r.examined)) =
            some s
        have hne : r.examined ≠ s := by
          intro hc
          rw [hc, hws] at hw
          cases hw
        rw [hdr]
        simp only [List.foldl_nil]
        rw [hdr] at hvrest
        simp only [List.foldl_nil] at hvrest
        have hmem2 : s ∈ (x :: xs).erase r.examined :=
          (List.mem_erase_of_ne (Ne.symm hne)).mpr hmem
        have hlen2 : ((x :: xs).erase r.examined).length ≤ rounds.length := by
          rw [List.length_erase_of_mem hmeme]
          simp only [List.length_cons] at hlen ⊢
          omega
        exact ih _ s hvrest (fun r2 h2 => hnd r2 (List.mem_cons_of_mem _ h2)) hlen2 hmem2
          hws fun z hz hwz => huniq z (List.erase_subset _ _ hz) hwz

theorem episodeStreamAux_cons (sched : List StreamObj → List WaitRound)
    (g : List StreamObj) (gs : List (List StreamObj)) :
    episodeStreamAux sched (g :: gs) =
      match get_first (sched g) g with
      | some s => some s
      | none => episodeStreamAux sched gs := rfl

theorem episodeStreamAux_sound (sched : List StreamObj → List WaitRound) :
    ∀ G : List (List StreamObj),
      (∀ g ∈ G, examined_valid (sched g) g = true) →
      ∀ s, episodeStreamAux sched G = some s →
        s ∈ G.flatten ∧ working_external_self s = some s := by
  intro G
  induction G with
  | nil =>
    intro _ s h
    cases h
  | cons g gs ih =>
    intro hv s h
    rw [episodeStreamAux_cons] at h
    cases hfirst : get_first (sched g) g with
    | some y =>
      rw [hfirst] at h
      have h2 : some y = some s := h
      have hys : y = s := Option.some.inj h2
      subst hys
      obtain ⟨hmem, hw⟩ := get_first_sound (sched g) g y (hv g (List.mem_cons_self _ _)) hfirst
      refine ⟨?_, hw⟩
      rw [List.flatten_cons, List.mem_append]
      exact Or.inl hmem
    | none =>
      rw [hfirst] at h
      have h2 : episodeStreamAux sched gs = some s := h
      obtain ⟨hmem, hw⟩ := ih (fun g2 hg2 => hv g2 (List.mem_cons_of_mem _ hg2)) s h2
      refine ⟨?_, hw⟩
      rw [List.flatten_cons, List.mem_append]
      exact Or.inr hmem

theorem episodeStreamAux_nodrop_props (sched : List StreamObj → List WaitRound) :
    ∀ G : List (List StreamObj),
      (∀ g ∈ G, ∀ a ∈ g, ∀ b ∈ g, a.priority = b.priority) →
      List.Pairwise (fun g h => ∀ a ∈ g, ∀ b ∈ h, b.priority < a.priority) G →
      (∀ g ∈ G, examined_valid (sched g) g = true ∧
        (∀ r ∈ sched g, r.dropped = []) ∧ g.length ≤ (sched g).length) →
      ((episodeStreamAux sched G = none ↔
          ∀ s ∈ G.flatten, working_external_self s = none) ∧
        (∀ s, episodeStreamAux sched G = some s →
          s ∈ G.flatten ∧ working_external_self s = some s ∧
            ∀ t ∈ G.flatten, working_external_self t ≠ none →
              t.priority ≤ s.priority) ∧
        (∀ s ∈ G.flatten, working_external_self s = some s →
          (∀ t ∈ G.flatten, working_external_self t ≠ none →
            t = s ∨ t.priority < s.priority) →
          episodeStreamAux sched G = some s)) := by
  intro G
  induction G with
  | nil =>
    intro _ _ _
    refine ⟨by simp [episodeStreamAux], ?_, ?_⟩
    · intro s h
      cases h
    · intro s hs
      simp at hs
  | cons g gs ih =>
    intro hsame hdesc hsch
    obtain ⟨hvg, hndg, hlg⟩ := hsch g (List.mem_cons_self _ _)
    have hsame' : ∀ h ∈ gs, ∀ a ∈ h, ∀ b ∈ h, a.priority = b.priority :=
      fun h hh => hsame h (List.mem_cons_of_mem _ hh)
    rw [List.pairwise_cons] at hdesc
    obtain ⟨hhead, htail⟩ := hdesc
    obtain ⟨ihnone, ihsome, ihuniq⟩ :=
      ih hsame' htail fun g2 hg2 => hsch g2 (List.mem_cons_of_mem _ hg2)
    cases hfirst : get_first (sched g) g with
    | some s =>
      obtain ⟨hsg, hws⟩ := get_first_sound (sched g) g s hvg hfirst
      have heval : episodeStreamAux sched (g :: gs) = some s := by
        rw [episodeStreamAux_cons, hfirst]
      refine ⟨?_, ?_, ?_⟩
      · rw [heval]
        refine iff_of_false (fun hc2 => Option.noConfusion hc2) ?_
        intro hall
        have := hall s (by
          rw [List.flatten_cons, List.mem_append]
          exact Or.inl hsg)
        rw [this] at hws
        cases hws
      · intro s' h'
        rw [heval] at h'
        have hss' : s = s' := Option.some.inj h'
        subst hss'
        refine ⟨by rw [List.flatten_cons, List.mem_append]; exact Or.inl hsg, hws, ?_⟩
        intro t ht hwt
        rw [List.flatten_cons, List.mem_append] at ht
        rcases ht with ht | ht
        · exact le_of_eq (hsame g (List.mem_cons_self _ _) t ht s hsg)
        · obtain ⟨h, hh, hth⟩ := List.mem_flatten.mp ht
          exact le_of_lt (hhead h hh s hsg t hth)
      · intro s' hs'mem hws' huniq
        rw [heval]
        rw [List.flatten_cons, List.mem_append] at hs'mem
        have hwsne : working_external_self s ≠ none := by
          rw [hws]
          exact fun hc2 => Option.noConfusion hc2
        have hsmem : s ∈ (g :: gs).flatten := by
          rw [List.flatten_cons, List.mem_append]
          exact Or.inl hsg
        rcases huniq s hsmem hwsne with rfl | hlt
        · rfl
        · rcases hs'mem with hs'g | hs'gs
          · exact absurd hlt (by
              rw [hsame g (List.mem_cons_self _ _) s hsg s' hs'g]
              exact lt_irrefl _)
          · obtain ⟨h, hh, hth⟩ := List.mem_flatten.mp hs'gs
            exact absurd (hhead h hh s hsg s' hth) (lt_asymm hlt)
    | none =>
      have hgnone : ∀ x ∈ g, working_external_self x = none :=
        (get_first_nodrop_none_iff (sched g) g hvg hndg hlg).mp hfirst
      have heval : episodeStreamAux sched (g :: gs) = episodeStreamAux sched gs := by
        rw [episodeStreamAux_cons, hfirst]
      refine ⟨?_, ?_, ?_⟩
      · rw [heval, ihnone, List.flatten_cons]
        rw [List.forall_mem_append]
        exact (and_iff_right hgnone).symm
      · intro s h'
        rw [heval] at h'
        obtain ⟨hm, hw, hmax⟩ := ihsome s h'
        refine ⟨by rw [List.flatten_cons, List.mem_append]; exact Or.inr hm, hw, ?_⟩
        intro t ht hwt
        rw [List.flatten_cons, List.mem_append] at ht
        rcases ht with ht | ht
        · exact absurd (hgnone t ht) hwt
        · exact hmax t ht hwt
      · intro s hsmem hws huniq
        rw [heval]
        rw [List.flatten_cons, List.mem_append] at hsmem
        rcases hsmem with hsg | hsgs
        · rw [hgnone s hsg] at hws
          cases hws
        · refine ihuniq s hsgs hws ?_
          intro t ht hwt
          exact huniq t (by rw [List.flatten_cons, List.mem_append]; exact Or.inr ht) hwt

/-- Under schedules in which every wait round completes exactly one racer
— no completed result is ever dropped — `Episode.stream` satisfies the race
law the specification states: the priority groups are strictly descending
(last conjunct); the result is null iff no stream at all is
working-external; any winner is a working-external stream that no
working-external stream outranks; and when exactly one member of the
winning priority group is working and external, that member is always the
result. -/
theorem episodeStream_nodrop_resolution (streams : List StreamObj)
    (sched : List StreamObj → List WaitRound)
    (hsch : ∀ g, examined_valid (sched g) g = true ∧
      (∀ r ∈ sched g, r.dropped = []) ∧ g.length ≤ (sched g).length) :
    (episodeStream sched streams = none ↔
        ∀ s ∈ streams, working_external_self s = none) ∧
      (∀ s, episodeStream sched streams = some s →
        s ∈ streams ∧ working_external_self s = some s ∧
          ∀ t ∈ streams, working_external_self t ≠ none →
            t.priority ≤ s.priority) ∧
      (∀ s ∈ streams, working_external_self s = some s →
        (∀ t ∈ streams, working_external_self t ≠ none →
          t = s ∨ t.priority < s.priority) →
        episodeStream sched streams = some s) ∧
      List.Pairwise (fun g h => ∀ a ∈ g, ∀ b ∈ h, b.priority < a.priority)
        (groupByPriority (sortByPriority streams)) := by
  obtain ⟨h1, h2, h3⟩ := episodeStreamAux_nodrop_props sched
    (groupByPriority (sortByPriority streams))
    (groupByPriority_same_prio _)
    (groupByPriority_strict_desc _ (sortByPriority_sorted streams))
    (fun g _ => hsch g)
  have hmem : ∀ x : StreamObj,
      x ∈ (groupByPriority (sortByPriority streams)).flatten ↔ x ∈ streams := by
    intro x
    rw [groupByPriority_flatten, (sortByPriority_perm streams).mem_iff]
  refine ⟨?_, ?_, ?_, groupByPriority_strict_desc _ (sortByPriority_sorted streams)⟩
  · unfold episodeStream
    rw [h1]
    constructor
    · intro hall s hsmem
      exact hall s ((hmem s).mpr hsmem)
    · intro hall s hsmem
      exact hall s ((hmem s).mp hsmem)
  · intro s h'
    unfold episodeStream at h'
    obtain ⟨hm, hw, hmax⟩ := h2 s h'
    exact ⟨(hmem s).mp hm, hw, fun t ht hwt => hmax t ((hmem t).mpr ht) hwt⟩
  · intro s hsmem hws huniq
    unfold episodeStream
    exact h3 s ((hmem s).mpr hsmem) hws fun t ht hwt => huniq t ((hmem t).mp ht) hwt

/-- C5: the race can drop the unique working stream.  The two streams
share priority 100, so they form a single racing group, and only the
second is working and external; the schedule is realizable (its round
examines a racing member), but both racers complete in the same wait
round, `next(iter(done))` hands over the non-working first stream, and the
second stream's completed truthy result is discarded together with the
done set — the race is over with no pending racers and the resolution
returns null, where the claim requires the unique working-external member
to always be the result. -/
theorem C5_unique_working_member_dropped :
    working_external_self ⟨100, true, .ok [['u']]⟩ = some ⟨100, true, .ok [['u']]⟩ ∧
      working_external_self ⟨100, true, .ok []⟩ = none ∧
      groupByPriority (sortByPriority
        [⟨100, true, .ok []⟩, ⟨100, true, .ok [['u']]⟩]) =
        [[⟨100, true, .ok []⟩, ⟨100, true, .ok [['u']]⟩]] ∧
      examined_valid [⟨⟨100, true, .ok []⟩, [⟨100, true, .ok [['u']]⟩]⟩]
        [⟨100, true, .ok []⟩, ⟨100, true, .ok [['u']]⟩] = true ∧
      episodeStream (fun _ => [⟨⟨100, true, .ok []⟩, [⟨100, true, .ok [['u']]⟩]⟩])
        [⟨100, true, .ok []⟩, ⟨100, true, .ok [['u']]⟩] = none := by
  decide

/-- C6: a stream is working exactly when its links computed without an
exception and are non-empty; `working_external_self` is the stream itself
iff `external` and `working` both hold and is null otherwise; a failure
while computing links makes the stream non-working instead of propagating. -/
theorem C6_working_external_self (s : StreamObj) :
    (s.working = true ↔ ∃ l, s.links = .ok l ∧ l ≠ []) ∧
      (working_external_self s = some s ↔ s.external = true ∧ s.working = true) ∧
      (working_external_self s = some s ∨ working_external_self s = none) ∧
      (∀ (p : Int) (x : Bool) (e : Unit), (StreamObj.mk p x (.error e)).working = false) := by
  refine ⟨?_, ?_, ?_, fun p x e => rfl⟩
  · unfold StreamObj.working
    cases hl : s.links with
    | ok l =>
      constructor
      · intro h
        refine ⟨l, rfl, ?_⟩
        intro hnil
        subst hnil
        simp at h
      · intro ⟨l', hl', hne⟩
        obtain rfl : l = l' := Except.ok.inj hl'
        simp [List.length_pos.mpr hne]
    | error e =>
      refine iff_of_false (by simp) ?_
      intro ⟨l', hl', _⟩
      cases hl'
  · unfold working_external_self
    by_cases hc : (s.external && s.working) = true
    · rw [if_pos hc]
      rw [Bool.and_eq_true] at hc
      exact iff_of_true rfl hc
    · rw [if_neg hc]
      rw [Bool.and_eq_true] at hc
      refine iff_of_false ?_ hc
      intro h
      cases h
  · unfold working_external_self
    by_cases hc : (s.external && s.working) = true
    · rw [if_pos hc]
      exact Or.inl rfl
    · rw [if_neg hc]
      exact Or.inr rfl

/-! ### Claim C10 -/

/-- C10: `episode_count` returns 0 when `get_episodes` raises or yields no
episodes; for an index-to-episode map, the maximum index plus one — which
with gaps can exceed the number of episodes present, as the final concrete
conjunct shows; for a list, its length. -/
theorem C10_episode_count :
    episode_count (.error ()) = 0 ∧
      episode_count (.ok (.dict [])) = 0 ∧
      episode_count (.ok (.list [])) = 0 ∧
      (∀ (entries : List (Nat × Unit)) (m : Nat),
        (entries.map Prod.fst).max? = some m →
        episode_count (.ok (.dict entries)) = m + 1) ∧
      (∀ entries : List Unit, episode_count (.ok (.list entries)) = entries.length) ∧
      episode_count (.ok (.dict [(0, ()), (5, ())])) = 6 ∧
      [(0, ()), ((5 : Nat), ())].length = 2 := by
  refine ⟨rfl, rfl, rfl, ?_, fun entries => rfl, by decide, by decide⟩
  intro entries m hm
  unfold episode_count
  dsimp only
  rw [hm]

/-- C10 witness: the dict characterization applied at a concrete gapped
episode map. -/
theorem C10_witness :
    episode_count (.ok (.dict [(2, ()), (7, ())])) = 8 :=
  C10_episode_count.2.2.2.1 [(2, ()), (7, ())] 7 (by decide)

/-! ### Claim C7 -/

/-- C7 evaluated on the code: when every attempt raises a connection error
until the retry budget (5) is exhausted, no response was ever remembered
and `perform_request` raises the builtin `TimeoutError`; `success`'s
`except (ClientError, asyncio.TimeoutError)` does not catch that class, so
`success` propagates the exception instead of returning a boolean.  The
remaining conjuncts show the boolean outcomes the claim does describe
correctly: plain statuses, caught fetch errors, and retry exhaustion that
still holds a (bad) response. -/
theorem C7_success_escapes :
    request_success (List.replicate 5 .connError) false = .error .builtinTimeout ∧
      request_success [.resp 200] false = .ok true ∧
      request_success [.resp 404] false = .ok false ∧
      request_success [.raised .asyncioTimeout] false = .ok false ∧
      request_success [.raised .clientError] false = .ok false ∧
      request_success [.resp 403, .resp 403, .resp 403, .resp 403, .resp 403] false =
        .ok false := by
  decide

/-! ### Claim C8 -/

/-- C8: `should_continue` answers false exactly when the stored first-page
titles are all among the titles seen so far (rolling buffer including the
current page); with nothing stored, or no page media, the scraper
continues; and a run whose page-0 extraction (of at most the buffer's 200
titles) covers all stored first-page titles uploads page 0's media and
stops without advancing. -/
theorem C8_update_until_last_state (st : ScraperState) (titles : List (List Char))
    (i : Nat) (env : Nat → Option PageResult) (fuel : Nat)
    (old page0 : List (List Char)) (nxt : Nat) (meta : Option (List (List Char))) :
    (∀ stored, st.first_page_titles = some stored →
      ((should_continue st (some titles) i).1 = false ↔
        ∀ t ∈ stored, t ∈ add_recent_media_titles st.recent_medium_titles titles)) ∧
      (st.first_page_titles = none → (should_continue st (some titles) i).1 = true) ∧
      (should_continue st none i).1 = true ∧
      (env 0 = some ⟨some page0, some nxt⟩ → page0.length ≤ 200 →
        (∀ t ∈ old, t ∈ page0) →
        scrape env (fuel + 1) ⟨[], some old, meta⟩ 0 [] = [(0, page0)]) := by
  refine ⟨?_, ?_, rfl, ?_⟩
  · intro stored hstored
    unfold should_continue check_first_page_titles_different
    rw [hstored]
    dsimp only
    simp
  · intro hnone
    unfold should_continue check_first_page_titles_different
    rw [hnone]
  · intro henv hlen hsub
    have hrec : add_recent_media_titles [] page0 = page0 := by
      unfold add_recent_media_titles
      show List.drop ((([] : List (List Char)) ++ page0).length - 200)
          (([] : List (List Char)) ++ page0) = page0
      rw [List.nil_append, Nat.sub_eq_zero_of_le hlen, List.drop_zero]
    have hsc : (should_continue ⟨[], some old, meta⟩ (some page0) 0).1 = false := by
      unfold should_continue check_first_page_titles_different
      dsimp only
      rw [hrec]
      simp
      exact hsub
    unfold scrape
    rw [henv]
    dsimp only
    rw [hsc]
    simp

/-- C8 witness: with stored first-page titles `["a"]` and a page-0
extraction `["a", "b"]`, the stop condition and the one-page scrape. -/
theorem C8_witness :
    ((∀ stored,
        (⟨[], some [['a']], none⟩ : ScraperState).first_page_titles = some stored →
        ((should_continue ⟨[], some [['a']], none⟩ (some [['a'], ['b']]) 3).1 = false ↔
          ∀ t ∈ stored, t ∈ add_recent_media_titles
            (⟨[], some [['a']], none⟩ : ScraperState).recent_medium_titles
            [['a'], ['b']])) ∧
      ((⟨[], some [['a']], none⟩ : ScraperState).first_page_titles = none →
        (should_continue ⟨[], some [['a']], none⟩ (some [['a'], ['b']]) 3).1 = true) ∧
      (should_continue ⟨[], some [['a']], none⟩ none 3).1 = true ∧
      ((fun n => if n = 0 then some (⟨some [['a'], ['b']], some 1⟩ : PageResult)
          else none) 0 = some ⟨some [['a'], ['b']], some 1⟩ →
        ([['a'], ['b']] : List (List Char)).length ≤ 200 →
        (∀ t ∈ [['a']], t ∈ ([['a'], ['b']] : List (List Char))) →
        scrape (fun n => if n = 0 then some ⟨some [['a'], ['b']], some 1⟩ else none)
          (3 + 1) ⟨[], some [['a']], none⟩ 0 [] = [(0, [['a'], ['b']])])) ∧
      scrape (fun n => if n = 0 then some ⟨some [['a'], ['b']], some 1⟩ else none)
        (3 + 1) ⟨[], some [['a']], none⟩ 0 [] = [(0, [['a'], ['b']])] :=
  ⟨C8_update_until_last_state ⟨[], some [['a']], none⟩ [['a'], ['b']] 3
      (fun n => if n = 0 then some ⟨some [['a'], ['b']], some 1⟩ else none) 3
      [['a']] [['a'], ['b']] 1 none,
    C8_update_until_last_state ⟨[], some [['a']], none⟩ [['a'], ['b']] 3
      (fun n => if n = 0 then some ⟨some [['a'], ['b']], some 1⟩ else none) 3
      [['a']] [['a'], ['b']] 1 none |>.2.2.2 rfl (by decide) (by decide)⟩

/-! ### Claim C9: dictionary and marker lemmas -/

theorem dget_cons {V : Type} (k0 : List Char) (v0 : V) (rest : List (List Char × V))
    (k : List Char) :
    dget ((k0, v0) :: rest) k = if k0 = k then some v0 else dget rest k := rfl

theorem dget_dset_self {V : Type} (d : List (List Char × V)) (k : List Char) (v : V) :
    dget (dset d k v) k = some v := by
  induction d with
  | nil => simp [dset, dget]
  | cons kv rest ih =>
    obtain ⟨k', v'⟩ := kv
    unfold dset
    by_cases h : k' = k
    · rw [if_pos h]
      simp [dget]
    · rw [if_neg h]
      unfold dget
      rw [if_neg h]
      exact ih

theorem dget_dset_ne {V : Type} (d : List (List Char × V)) {k' k : List Char} (v : V)
    (h : k' ≠ k) : dget (dset d k' v) k = dget d k := by
  induction d with
  | nil => simp [dset, dget, if_neg h]
  | cons kv rest ih =>
    obtain ⟨k0, v0⟩ := kv
    unfold dset
    by_cases h0 : k0 = k'
    · rw [if_pos h0]
      unfold dget
      rw [if_neg h, if_neg (h0 ▸ h)]
    · rw [if_neg h0]
      unfold dget
      by_cases h1 : k0 = k
      · rw [if_pos h1, if_pos h1]
      · rw [if_neg h1, if_neg h1]
        exact ih

theorem dset_eq_append {V : Type} (d : List (List Char × V)) (k : List Char) (v : V)
    (h : dget d k = none) : dset d k v = d ++ [(k, v)] := by
  induction d with
  | nil => rfl
  | cons kv rest ih =>
    obtain ⟨k0, v0⟩ := kv
    unfold dget at h
    by_cases h0 : k0 = k
    · rw [if_pos h0] at h
      cases h
    · rw [if_neg h0] at h
      unfold dset
      rw [if_neg h0, List.cons_append, ih h]

theorem dget_append_left {V : Type} (d1 d2 : List (List Char × V)) (k : List Char)
    (v : V) (h : dget d1 k = some v) : dget (d1 ++ d2) k = some v := by
  induction d1 with
  | nil => cases h
  | cons kv rest ih =>
    obtain ⟨k0, v0⟩ := kv
    unfold dget at h
    rw [List.cons_append]
    show (if k0 = k then some v0 else dget (rest ++ d2) k) = some v
    by_cases h0 : k0 = k
    · rw [if_pos h0] at h ⊢
      exact h
    · rw [if_neg h0] at h ⊢
      exact ih h

theorem dget_append_right {V : Type} (d1 d2 : List (List Char × V)) (k : List Char)
    (h : dget d1 k = none) : dget (d1 ++ d2) k = dget d2 k := by
  induction d1 with
  | nil => rfl
  | cons kv rest ih =>
    obtain ⟨k0, v0⟩ := kv
    rw [dget_cons] at h
    by_cases h0 : k0 = k
    · rw [if_pos h0] at h
      cases h
    · rw [if_neg h0] at h
      rw [List.cons_append, dget_cons, if_neg h0]
      exact ih h

theorem marker_not_suffix {b : List Char} (hb : '$' ∉ b) :
    SPECIAL_MARKER.isSuffixOf b = false := by
  by_contra h
  have h2 : SPECIAL_MARKER.isSuffixOf b = true := by
    cases hs : SPECIAL_MARKER.isSuffixOf b
    · exact absurd hs h
    · rfl
  have h3 : SPECIAL_MARKER <:+ b := List.isSuffixOf_iff_suffix.mp h2
  exact hb (h3.subset (by decide))

theorem marker_suffix_append (b : List Char) :
    SPECIAL_MARKER.isSuffixOf (b ++ SPECIAL_MARKER) = true :=
  List.isSuffixOf_iff_suffix.mpr (List.suffix_append b SPECIAL_MARKER)

theorem take_strip_marker (b : List Char) :
    (b ++ SPECIAL_MARKER).take ((b ++ SPECIAL_MARKER).length - SPECIAL_MARKER.length) =
      b := by
  have h : (b ++ SPECIAL_MARKER).length - SPECIAL_MARKER.length = b.length := by
    rw [List.length_append]
    omega
  rw [h]
  exact List.take_left' rfl

theorem append_marker_ne {a b : List Char} (ha : '$' ∉ a) : b ++ SPECIAL_MARKER ≠ a := by
  intro h
  apply ha
  rw [← h]
  exact List.mem_append_right b (by decide)

theorem append_marker_inj {a b : List Char} (h : b ++ SPECIAL_MARKER = a ++ SPECIAL_MARKER) :
    b = a :=
  List.append_cancel_right h

theorem from_state_step_plain {V : Type} (c : StatefulClass V)
    (fields : List (List Char × V)) (b : List Char) (v : V) (hb : '$' ∉ b) :
    from_state_step c fields (b, v) = dset fields b v := by
  unfold from_state_step
  rw [marker_not_suffix hb]
  simp

theorem from_state_step_marker {V : Type} (c : StatefulClass V)
    (fields : List (List Char × V)) (b : List Char) (v : V) :
    from_state_step c fields (b ++ SPECIAL_MARKER, v) =
      dset fields b (c.deserialise_special b v) := by
  unfold from_state_step
  rw [marker_suffix_append]
  simp only [if_true]
  rw [take_strip_marker]

theorem from_state_step_dget_ne {V : Type} (c : StatefulClass V)
    (fields : List (List Char × V)) (kv : List Char × V) (k : List Char)
    (h : (if SPECIAL_MARKER.isSuffixOf kv.1 then
      kv.1.take (kv.1.length - SPECIAL_MARKER.length) else kv.1) ≠ k) :
    dget (from_state_step c fields kv) k = dget fields k := by
  unfold from_state_step
  by_cases hs : SPECIAL_MARKER.isSuffixOf kv.1
  · rw [if_pos hs] at h
    rw [if_pos hs]
    exact dget_dset_ne _ _ h
  · rw [if_neg hs] at h
    rw [if_neg hs]
    exact dget_dset_ne _ _ h

theorem foldl_from_state_preserve {V : Type} (c : StatefulClass V) :
    ∀ (entries : List (List Char × V)) (fields0 : List (List Char × V)) (k : List Char),
      (∀ kv ∈ entries, (if SPECIAL_MARKER.isSuffixOf kv.1 then
        kv.1.take (kv.1.length - SPECIAL_MARKER.length) else kv.1) ≠ k) →
      dget (entries.foldl (from_state_step c) fields0) k = dget fields0 k := by
  intro entries
  induction entries with
  | nil =>
    intro fields0 k _
    rfl
  | cons kv rest ih =>
    intro fields0 k h
    rw [List.foldl_cons]
    rw [ih _ k fun kv2 hk => h kv2 (List.mem_cons_of_mem _ hk)]
    exact from_state_step_dget_ne c fields0 kv k (h kv (List.mem_cons_self _ _))

theorem mem_entriesOf {V : Type} (c : StatefulClass V) (inst : StatefulInst V)
    (attrs : List (List Char)) (kv : List Char × V)
    (h : kv ∈ attrs.filterMap (entryOf c inst)) :
    ∃ a ∈ attrs, ∃ w, dget inst.fields a = some w ∧
      (kv = (a, w) ∨ kv = (a ++ SPECIAL_MARKER, c.serialise_special a w)) := by
  rw [List.mem_filterMap] at h
  obtain ⟨a, ha, hent⟩ := h
  unfold entryOf at hent
  cases hw : dget inst.fields a with
  | none =>
    rw [hw] at hent
    cases hent
  | some w =>
    rw [hw] at hent
    dsimp only at hent
    by_cases hb : c.check_container_bson w = true
    · rw [if_pos hb] at hent
      exact ⟨a, ha, w, hw, Or.inl (Option.some.inj hent).symm⟩
    · rw [if_neg hb] at hent
      exact ⟨a, ha, w, hw, Or.inr (Option.some.inj hent).symm⟩

theorem entry_restored_key {V : Type} (a : List Char) (w1 w2 : V) (ha : '$' ∉ a)
    (kv : List Char × V) (h : kv = (a, w1) ∨ kv = (a ++ SPECIAL_MARKER, w2)) :
    (if SPECIAL_MARKER.isSuffixOf kv.1 then
      kv.1.take (kv.1.length - SPECIAL_MARKER.length) else kv.1) = a := by
  rcases h with rfl | rfl
  · dsimp only
    rw [marker_not_suffix ha]
    simp
  · dsimp only
    rw [marker_suffix_append]
    simp only [if_true]
    exact take_strip_marker a

theorem state_fold_decomp {V : Type} (c : StatefulClass V) (inst : StatefulInst V) :
    ∀ (attrs : List (List Char)) (data0 : List (List Char × V)),
      attrs.Nodup → (∀ a ∈ attrs, '$' ∉ a) →
      (∀ a ∈ attrs, dget data0 a = none ∧ dget data0 (a ++ SPECIAL_MARKER) = none) →
      attrs.foldl (state_step c inst) data0 =
        data0 ++ attrs.filterMap (entryOf c inst) := by
  intro attrs
  induction attrs with
  | nil =>
    intro data0 _ _ _
    simp
  | cons b rest ih =>
    intro data0 hnd hdol hfresh
    rw [List.nodup_cons] at hnd
    obtain ⟨hbrest, hndrest⟩ := hnd
    have hdolb : '$' ∉ b := hdol b (List.mem_cons_self _ _)
    have hdolrest : ∀ a ∈ rest, '$' ∉ a := fun a ha => hdol a (List.mem_cons_of_mem _ ha)
    obtain ⟨hfb, hfbm⟩ := hfresh b (List.mem_cons_self _ _)
    rw [List.foldl_cons]
    cases hv : dget inst.fields b with
    | none =>
      have hstep : state_step c inst data0 b = data0 := by
        unfold state_step
        rw [hv]
      have hent : entryOf c inst b = none := by
        unfold entryOf
        rw [hv]
      rw [hstep, List.filterMap_cons_none hent]
      exact ih data0 hndrest hdolrest fun a ha => hfresh a (List.mem_cons_of_mem _ ha)
    | some w =>
      by_cases hb : c.check_container_bson w = true
      · have hstep : state_step c inst data0 b = data0 ++ [(b, w)] := by
          unfold state_step
          rw [hv]
          dsimp only
          rw [if_pos hb]
          exact dset_eq_append data0 b w hfb
        have hent : entryOf c inst b = some (b, w) := by
          unfold entryOf
          rw [hv]
          dsimp only
          rw [if_pos hb]
        rw [hstep, List.filterMap_cons_some hent]
        rw [ih (data0 ++ [(b, w)]) hndrest hdolrest ?_]
        · rw [List.append_assoc]
          rfl
        · intro a ha
          have hane : b ≠ a := fun hc => hbrest (hc ▸ ha)
          obtain ⟨hfa, hfam⟩ := hfresh a (List.mem_cons_of_mem _ ha)
          constructor
          · rw [dget_append_right _ _ _ hfa, dget_cons, if_neg hane]
            rfl
          · rw [dget_append_right _ _ _ hfam, dget_cons,
              if_neg (Ne.symm (append_marker_ne hdolb))]
            rfl
      · have hstep : state_step c inst data0 b =
            data0 ++ [(b ++ SPECIAL_MARKER, c.serialise_special b w)] := by
          unfold state_step
          rw [hv]
          dsimp only
          rw [if_neg hb]
          exact dset_eq_append data0 _ _ hfbm
        have hent : entryOf c inst b =
            some (b ++ SPECIAL_MARKER, c.serialise_special b w) := by
          unfold entryOf
          rw [hv]
          dsimp only
          rw [if_neg hb]
        rw [hstep, List.filterMap_cons_some hent]
        rw [ih _ hndrest hdolrest ?_]
        · rw [List.append_assoc]
          rfl
        · intro a ha
          have hane : a ≠ b := fun hc => hbrest (hc ▸ ha)
          obtain ⟨hfa, hfam⟩ := hfresh a (List.mem_cons_of_mem _ ha)
          constructor
          · rw [dget_append_right _ _ _ hfa, dget_cons,
              if_neg (append_marker_ne (hdolrest a ha))]
            rfl
          · have hinj : b ++ SPECIAL_MARKER ≠ a ++ SPECIAL_MARKER := by
              intro hc
              exact hane (append_marker_inj hc).symm
            rw [dget_append_right _ _ _ hfam, dget_cons, if_neg hinj]
            rfl

theorem entries_fold_dget {V : Type} (c : StatefulClass V) (inst : StatefulInst V) :
    ∀ (attrs : List (List Char)) (fields0 : List (List Char × V)),
      attrs.Nodup → (∀ a ∈ attrs, '$' ∉ a) →
      (∀ a ∈ attrs, ∀ v, dget inst.fields a = some v →
        c.check_container_bson v = false →
        c.deserialise_special a (c.serialise_special a v) = v) →
      ∀ a ∈ attrs, ∀ v, dget inst.fields a = some v →
        dget ((attrs.filterMap (entryOf c inst)).foldl (from_state_step c) fields0) a =
          some v := by
  intro attrs
  induction attrs with
  | nil =>
    intro fields0 _ _ _ a ha
    cases ha
  | cons b rest ih =>
    intro fields0 hnd hdol hhooks a ha v hv
    rw [List.nodup_cons] at hnd
    obtain ⟨hbrest, hndrest⟩ := hnd
    have hdolb : '$' ∉ b := hdol b (List.mem_cons_self _ _)
    have hdolrest : ∀ x ∈ rest, '$' ∉ x := fun x hx => hdol x (List.mem_cons_of_mem _ hx)
    have hhooksrest : ∀ x ∈ rest, ∀ v, dget inst.fields x = some v →
        c.check_container_bson v = false →
        c.deserialise_special x (c.serialise_special x v) = v :=
      fun x hx => hhooks x (List.mem_cons_of_mem _ hx)
    have hpreserve : ∀ fields1 : List (List Char × V), dget fields1 b = some v →
        dget ((rest.filterMap (entryOf c inst)).foldl (from_state_step c) fields1) b =
          some v := by
      intro fields1 h1
      rw [foldl_from_state_preserve c _ fields1 b ?_]
      · exact h1
      · intro kv hkv
        obtain ⟨x, hx, w, hw, hshape⟩ := mem_entriesOf c inst rest kv hkv
        rw [entry_restored_key x w (c.serialise_special x w) (hdolrest x hx) kv hshape]
        exact fun hc => hbrest (hc ▸ hx)
    cases hvb : dget inst.fields b with
    | none =>
      have hent : entryOf c inst b = none := by
        unfold entryOf
        rw [hvb]
      rw [List.filterMap_cons_none hent]
      rcases List.mem_cons.mp ha with rfl | ha2
      · rw [hv] at hvb
        cases hvb
      · exact ih fields0 hndrest hdolrest hhooksrest a ha2 v hv
    | some w =>
      by_cases hcb : c.check_container_bson w = true
      · have hent : entryOf c inst b = some (b, w) := by
          unfold entryOf
          rw [hvb]
          dsimp only
          rw [if_pos hcb]
        rw [List.filterMap_cons_some hent, List.foldl_cons,
          from_state_step_plain c fields0 b w hdolb]
        rcases List.mem_cons.mp ha with rfl | ha2
        · have hvw : v = w := by
            rw [hv] at hvb
            exact Option.some.inj hvb
          subst hvw
          exact hpreserve _ (dget_dset_self fields0 a v)
        · exact ih _ hndrest hdolrest hhooksrest a ha2 v hv
      · have hent : entryOf c inst b =
            some (b ++ SPECIAL_MARKER, c.serialise_special b w) := by
          unfold entryOf
          rw [hvb]
          dsimp only
          rw [if_neg hcb]
        have hcbf : c.check_container_bson w = false := by
          cases hx : c.check_container_bson w
          · rfl
          · exact absurd hx hcb
        rw [List.filterMap_cons_some hent, List.foldl_cons,
          from_state_step_marker c fields0 b (c.serialise_special b w),
          hhooks b (List.mem_cons_self _ _) w hvb hcbf]
        rcases List.mem_cons.mp ha with rfl | ha2
        · have hvw : v = w := by
            rw [hv] at hvb
            exact Option.some.inj hvb
          subst hvw
          exact hpreserve _ (dget_dset_self fields0 a v)
        · exact ih _ hndrest hdolrest hhooksrest a ha2 v hv

/-- C9: for every Stateful object, rehydrating the serialized `state`
document through `from_state` yields an object whose cached fields equal
the prior values for every declared ATTR that had been computed; non-BSON
values travel under `"{name}$state"` and are decoded back through the
per-class hooks (assumed left-inverse on the values actually stored).
Attribute names are Python identifiers, hence contain no `'$'` and differ
from the reserved `"req"`/`"cls"` document keys. -/
theorem C9_stateful_roundtrip {V : Type} (c : StatefulClass V) (inst : StatefulInst V)
    (hnodup : c.ATTRS.Nodup)
    (hdollar : ∀ a ∈ c.ATTRS, '$' ∉ a)
    (hreq : ['r', 'e', 'q'] ∉ c.ATTRS)
    (hcls : ['c', 'l', 's'] ∉ c.ATTRS)
    (hhooks : ∀ a ∈ c.ATTRS, ∀ v, dget inst.fields a = some v →
      c.check_container_bson v = false →
      c.deserialise_special a (c.serialise_special a v) = v) :
    ∃ inst', Stateful.from_state c (Stateful.state c inst) = some inst' ∧
      ∀ a ∈ c.ATTRS, ∀ v, dget inst.fields a = some v →
        dget inst'.fields a = some v := by
  have hD : (if c.INCLUDE_CLS then
        dset [(['r', 'e', 'q'], c.req_state inst.req)] ['c', 'l', 's'] c.qualcls
      else [(['r', 'e', 'q'], c.req_state inst.req)]) =
      [(['r', 'e', 'q'], c.req_state inst.req)] ++
        (if c.INCLUDE_CLS then [(['c', 'l', 's'], c.qualcls)] else []) := by
    cases c.INCLUDE_CLS <;> rfl
  have hfreshD : ∀ a ∈ c.ATTRS,
      dget ([(['r', 'e', 'q'], c.req_state inst.req)] ++
          (if c.INCLUDE_CLS then [(['c', 'l', 's'], c.qualcls)] else [])) a = none ∧
        dget ([(['r', 'e', 'q'], c.req_state inst.req)] ++
          (if c.INCLUDE_CLS then [(['c', 'l', 's'], c.qualcls)] else []))
          (a ++ SPECIAL_MARKER) = none := by
    intro a ha
    have hareq : a ≠ ['r', 'e', 'q'] := fun hc => hreq (hc ▸ ha)
    have hacls : a ≠ ['c', 'l', 's'] := fun hc => hcls (hc ▸ ha)
    have hmreq : (['r', 'e', 'q'] : List Char) ≠ a ++ SPECIAL_MARKER :=
      Ne.symm (append_marker_ne (by decide))
    have hmcls : (['c', 'l', 's'] : List Char) ≠ a ++ SPECIAL_MARKER :=
      Ne.symm (append_marker_ne (by decide))
    constructor
    · rw [List.singleton_append, dget_cons, if_neg (Ne.symm hareq)]
      cases c.INCLUDE_CLS
      · rfl
      · show dget [(['c', 'l', 's'], c.qualcls)] a = none
        rw [dget_cons, if_neg (Ne.symm hacls)]
        rfl
    · rw [List.singleton_append, dget_cons, if_neg hmreq]
      cases c.INCLUDE_CLS
      · rfl
      · show dget [(['c', 'l', 's'], c.qualcls)] (a ++ SPECIAL_MARKER) = none
        rw [dget_cons, if_neg hmcls]
        rfl
  have hstate : Stateful.state c inst =
      ([(['r', 'e', 'q'], c.req_state inst.req)] ++
        (if c.INCLUDE_CLS then [(['c', 'l', 's'], c.qualcls)] else [])) ++
        c.ATTRS.filterMap (entryOf c inst) := by
    show c.ATTRS.foldl (state_step c inst)
        (if c.INCLUDE_CLS then
          dset [(['r', 'e', 'q'], c.req_state inst.req)] ['c', 'l', 's'] c.qualcls
        else [(['r', 'e', 'q'], c.req_state inst.req)]) = _
    rw [hD]
    exact state_fold_decomp c inst c.ATTRS _ hnodup hdollar hfreshD
  have hreqget : dget (Stateful.state c inst) ['r', 'e', 'q'] =
      some (c.req_state inst.req) := by
    rw [hstate]
    refine dget_append_left _ _ _ _ (dget_append_left _ _ _ _ ?_)
    rw [dget_cons, if_pos rfl]
  have hfilter : (Stateful.state c inst).filter (fun kv => kv.1 ≠ ['r', 'e', 'q']) =
      (if c.INCLUDE_CLS then [(['c', 'l', 's'], c.qualcls)] else []) ++
        c.ATTRS.filterMap (entryOf c inst) := by
    rw [hstate, List.filter_append, List.filter_append]
    have h1 : List.filter (fun kv => decide (kv.1 ≠ ['r', 'e', 'q']))
        [(['r', 'e', 'q'], c.req_state inst.req)] = [] := by
      rw [List.filter_cons, if_neg]
      · rfl
      · show ¬(decide ((['r', 'e', 'q'] : List Char) ≠ ['r', 'e', 'q']) = true)
        decide
    have h2 : List.filter (fun kv => decide (kv.1 ≠ ['r', 'e', 'q']))
        (if c.INCLUDE_CLS then [(['c', 'l', 's'], c.qualcls)] else []) =
        (if c.INCLUDE_CLS then [(['c', 'l', 's'], c.qualcls)] else []) := by
      cases c.INCLUDE_CLS
      · rfl
      · show List.filter _ [(['c', 'l', 's'], c.qualcls)] = [(['c', 'l', 's'], c.qualcls)]
        rw [List.filter_eq_self]
        intro kv hkv
        rcases List.mem_singleton.mp hkv with rfl
        exact decide_eq_true (by decide : (['c', 'l', 's'] : List Char) ≠ ['r', 'e', 'q'])
    have h3 : List.filter (fun kv => decide (kv.1 ≠ ['r', 'e', 'q']))
        (c.ATTRS.filterMap (entryOf c inst)) = c.ATTRS.filterMap (entryOf c inst) := by
      rw [List.filter_eq_self]
      intro kv hkv
      obtain ⟨a, ha, w, hw, hshape⟩ := mem_entriesOf c inst c.ATTRS kv hkv
      have hkey : kv.1 ≠ ['r', 'e', 'q'] := by
        rcases hshape with rfl | rfl
        · exact fun hc => hreq (hc ▸ ha)
        · exact append_marker_ne (by decide)
      exact decide_eq_true hkey
    rw [h1, h2, h3, List.nil_append]
  have hfrom : Stateful.from_state c (Stateful.state c inst) = some
      { req := c.req_from_state (c.req_state inst.req)
        fields := ((if c.INCLUDE_CLS then [(['c', 'l', 's'], c.qualcls)] else []) ++
          c.ATTRS.filterMap (entryOf c inst)).foldl (from_state_step c) [] } := by
    unfold Stateful.from_state
    rw [hreqget, hfilter]
  rw [hfrom]
  refine ⟨_, rfl, ?_⟩
  intro a ha v hv
  show dget (((if c.INCLUDE_CLS then [(['c', 'l', 's'], c.qualcls)] else []) ++
      c.ATTRS.filterMap (entryOf c inst)).foldl (from_state_step c) []) a = some v
  rw [List.foldl_append]
  exact entries_fold_dget c inst c.ATTRS _ hnodup hdollar hhooks a ha v hv

/-- C9 witness: a concrete two-attr class over natural-number values — one
BSON-storable field and one special field whose hooks shift by 1000 — whose
rehydrated instance restores both cached values. -/
theorem C9_witness :
    ∃ inst', Stateful.from_state
        (⟨[['l', 'i', 'n', 'k', 's'], ['p', 'o', 's', 't', 'e', 'r']], true, 0,
          fun v => decide (v < 100), fun _ v => v + 1000, fun _ v => v - 1000,
          fun v => v, fun v => v⟩ : StatefulClass Nat)
        (Stateful.state
          ⟨[['l', 'i', 'n', 'k', 's'], ['p', 'o', 's', 't', 'e', 'r']], true, 0,
            fun v => decide (v < 100), fun _ v => v + 1000, fun _ v => v - 1000,
            fun v => v, fun v => v⟩
          ⟨7, [(['l', 'i', 'n', 'k', 's'], 5), (['p', 'o', 's', 't', 'e', 'r'], 500)]⟩) =
        some inst' ∧
      ∀ a ∈ ([['l', 'i', 'n', 'k', 's'], ['p', 'o', 's', 't', 'e', 'r']] : List (List Char)),
        ∀ v : Nat,
        dget [(['l', 'i', 'n', 'k', 's'], 5), (['p', 'o', 's', 't', 'e', 'r'], 500)] a =
          some v →
        dget inst'.fields a = some v :=
  C9_stateful_roundtrip
    ⟨[['l', 'i', 'n', 'k', 's'], ['p', 'o', 's', 't', 'e', 'r']], true, 0,
      fun v => decide (v < 100), fun _ v => v + 1000, fun _ v => v - 1000,
      fun v => v, fun v => v⟩
    ⟨7, [(['l', 'i', 'n', 'k', 's'], 5), (['p', 'o', 's', 't', 'e', 'r'], 500)]⟩
    (by decide) (by decide) (by decide) (by decide)
    (fun a _ v _ _ => by show v + 1000 - 1000 = v; omega)

end Grobber
